import Mathlib

/-!
Verification of the T402 payment protocol library (Python reference
implementation) against its natural-language specification.

The development shallowly embeds the Python code:

* Python `dict`s become association lists with Python semantics
  (insertion order preserved, update-in-place on existing keys).
* Python strings are Lean `String`s; character-level processing works on
  `List Char`.
* Python `int(...)`, `str(...)`, `Decimal(...)` and the small regular
  expressions the code builds are modelled by executable Lean functions
  that follow CPython semantics on the inputs the code can produce.
* Functions that can raise return `Except String α`; the error payload is
  a human-readable marker for the exception.
* Blockchain SDK objects (solders `VersionedTransaction`) are modelled at
  the level of the decoded message the code inspects (`account_keys`,
  compiled instructions); base64/solders decoding itself is an external
  collaborator, so a transaction value is either `undecodable` or a
  decoded message.

Each embedded definition is named after the source definition it
translates (module noted in its doc comment).
-/

/-! ## Python primitives -/

/-- Association-list lookup modelling Python `d.get(k)` / `k in d`. -/
def alGet {κ α : Type} [DecidableEq κ] (k : κ) : List (κ × α) → Option α
  | [] => none
  | (k2, v) :: rest => if k2 = k then some v else alGet k rest

/-- Association-list update modelling Python `d[k] = v`: replaces the value
in place when the key exists, otherwise appends (dicts preserve insertion
order). -/
def alSet {κ α : Type} [DecidableEq κ] (k : κ) (v : α) : List (κ × α) → List (κ × α)
  | [] => [(k, v)]
  | (k2, v2) :: rest => if k2 = k then (k, v) :: rest else (k2, v2) :: alSet k v rest

/-- Models Python `str.split(sep)` for a single-character separator. -/
def splitOnChar (sep : Char) : List Char → List (List Char)
  | [] => [[]]
  | c :: rest =>
    match splitOnChar sep rest with
    | [] => [[]]
    | grp :: gs => if c = sep then [] :: grp :: gs else (c :: grp) :: gs

/-- Whitespace characters stripped by Python `str.strip()` / `int()`
(the ASCII subset; the code never feeds other Unicode whitespace). -/
def isPySpace (c : Char) : Bool :=
  c.toNat = 32 || c.toNat = 9 || c.toNat = 10 || c.toNat = 11 || c.toNat = 12 ||
    c.toNat = 13

/-- ASCII digit test (Python `int()` also accepts other Unicode decimal
digits; the code only produces ASCII). -/
def isAsciiDigit (c : Char) : Bool := 48 ≤ c.toNat && c.toNat ≤ 57

/-- Models Python `str.strip()`. -/
def pyStrip (s : List Char) : List Char :=
  ((s.dropWhile isPySpace).reverse.dropWhile isPySpace).reverse

/-- Numeric value of an ASCII digit. -/
def digitVal (c : Char) : Nat := c.toNat - 48

/-- Accumulating evaluation of a run of ASCII digits, with Python's rule
that a single underscore may separate two digits. -/
def pyDigitsCore (acc : Nat) : List Char → Option Nat
  | [] => some acc
  | c :: rest =>
    if isAsciiDigit c then pyDigitsCore (acc * 10 + digitVal c) rest
    else if c = '_' then
      match rest with
      | [] => none
      | d :: rest2 =>
        if isAsciiDigit d then pyDigitsCore (acc * 10 + digitVal d) rest2 else none
    else none

/-- Digit-run parser: at least one digit, underscores only between digits. -/
def pyParseDigits : List Char → Option Nat
  | [] => none
  | c :: rest => if isAsciiDigit c then pyDigitsCore (digitVal c) rest else none

/-- Models Python `int(s)` on a string: optional surrounding whitespace, an
optional sign, then decimal digits possibly separated by single
underscores.  Returns `none` where CPython raises `ValueError`. -/
def pyInt (s : List Char) : Option Int :=
  match pyStrip s with
  | '-' :: rest => (pyParseDigits rest).map (fun n => -(n : Int))
  | '+' :: rest => (pyParseDigits rest).map (fun n => (n : Int))
  | rest => (pyParseDigits rest).map (fun n => (n : Int))

/-- Fuel-driven digit extraction (structural, so that terms evaluate by
kernel reduction); `natToDigitsRev` supplies enough fuel. -/
def natToDigitsRevAux : Nat → Nat → List Char
  | 0, _ => []
  | fuel + 1, n =>
    if n < 10 then [Char.ofNat (48 + n)]
    else Char.ofNat (48 + n % 10) :: natToDigitsRevAux fuel (n / 10)

/-- Decimal digits of `n`, least significant first. -/
def natToDigitsRev (n : Nat) : List Char := natToDigitsRevAux (n + 1) n

/-- Models Python `str(n)` for a non-negative integer. -/
def natToStr (n : Nat) : List Char := (natToDigitsRev n).reverse

/-- Models Python `str(i)` for an arbitrary integer. -/
def intToStr (i : Int) : List Char :=
  if i < 0 then '-' :: natToStr i.natAbs else natToStr i.natAbs

/-- String version of `intToStr`. -/
def intToStrS (i : Int) : String := String.mk (intToStr i)

/-- Models Python `s.zfill(w)` for a digit string (left-pad with zeros). -/
def zfillLeft (w : Nat) (s : List Char) : List Char :=
  List.replicate (w - s.length) '0' ++ s

/-- Models Python `s.rstrip("0")`. -/
def rstripZeros (s : List Char) : List Char :=
  (s.reverse.dropWhile (fun c => c = '0')).reverse

/-! ## svm.py — amount formatting and parsing -/

/-- Embeds `parse_amount` (svm.py): parse a decimal string into token
smallest units.  Errors mirror the `ValueError`s CPython raises (the
explicit format check, and the uncaught failures of `int(...)`). -/
def parse_amount (amount : List Char) (decimals : Nat) : Except String Int :=
  let s := pyStrip amount
  let parts := splitOnChar '.' s
  if 2 < parts.length then .error ("Invalid amount format: " ++ String.mk s)
  else
    match pyInt (parts.headD []) with
    | none => .error "ValueError: invalid literal for int"
    | some int_part =>
      let multiplier : Int := (10 : Int) ^ decimals
      if parts.length = 2 ∧ parts.getD 1 [] ≠ [] then
        let ds0 := parts.getD 1 []
        let ds :=
          if decimals < ds0.length then ds0.take decimals
          else ds0 ++ List.replicate (decimals - ds0.length) '0'
        match pyInt ds with
        | none => .error "ValueError: invalid literal for int"
        | some dec_part => .ok (int_part * multiplier + dec_part)
      else .ok (int_part * multiplier)

/-- Embeds `format_amount` (svm.py): format smallest-unit amounts as a
decimal string.  Python `//` and `%` on a positive divisor are Euclidean
division and remainder. -/
def format_amount (amount : Int) (decimals : Nat) : List Char :=
  if amount = 0 then ['0']
  else
    let divisor : Int := (10 : Int) ^ decimals
    let q := Int.ediv amount divisor
    let r := Int.emod amount divisor
    if r = 0 then intToStr q
    else intToStr q ++ '.' :: rstripZeros (zfillLeft decimals (natToStr r.natAbs))

/-! ## svm.py — network tables -/

def SOLANA_MAINNET : String := "solana:5eykt4UsFv8P8NJdTREpY1vzqKqZKvdp"

def SOLANA_DEVNET : String := "solana:EtWTRABZaYq6iMfeYKouRu166VU2xqa1"

def SOLANA_TESTNET : String := "solana:4uhcVJyU9pJkvQyS88uRDiswHXSCkY3z"

def USDC_MAINNET_ADDRESS : String := "EPjFWdd5AufqSSqeM2qN1xzybapC8G4wEGGkZwyTDt1v"

def USDC_DEVNET_ADDRESS : String := "4zMMC9srt5Ri5X14GAgXhaHii3GnPAEERYPJgZJDncDU"

def TOKEN_PROGRAM_ADDRESS : String := "TokenkegQfeZyiNwAJbNbGKPFXCWuBvf9Ss623VQ5DA"

def TOKEN_2022_PROGRAM_ADDRESS : String := "TokenzQdBNbLqP5VEhdkAS6EPFLC1PHnBqCXEpPxuEb"

/-- Embeds `V1_TO_V2_NETWORK_MAP` (svm.py). -/
def V1_TO_V2_NETWORK_MAP : List (String × String) :=
  [("solana", SOLANA_MAINNET), ("solana-devnet", SOLANA_DEVNET),
   ("solana-testnet", SOLANA_TESTNET)]

/-- Embeds `normalize_network` (svm.py). -/
def normalize_network (network : String) : String :=
  match alGet network V1_TO_V2_NETWORK_MAP with
  | some v2 => v2
  | none => network

/-- Embeds `TokenConfig` (svm.py); only the fields the embedded operations
read. -/
structure TokenConfig where
  mint_address : String
  symbol : String
  name : String
  decimals : Nat
deriving DecidableEq, Repr

/-- Embeds the `default_asset` column of `NETWORK_CONFIGS` (svm.py); the
RPC fields and the (identical) `supported_assets` entries are not read by
any embedded operation. -/
def NETWORK_CONFIGS_default_asset : List (String × TokenConfig) :=
  [(SOLANA_MAINNET, ⟨USDC_MAINNET_ADDRESS, "USDC", "USD Coin", 6⟩),
   (SOLANA_DEVNET, ⟨USDC_DEVNET_ADDRESS, "USDC", "USD Coin (Devnet)", 6⟩),
   (SOLANA_TESTNET, ⟨USDC_DEVNET_ADDRESS, "USDC", "USD Coin (Testnet)", 6⟩)]

/-- Embeds `get_default_asset` (svm.py): normalize, then read the network
config's default asset. -/
def get_default_asset (network : String) : Option TokenConfig :=
  alGet (normalize_network network) NETWORK_CONFIGS_default_asset

/-- Result shape of `ExactSvmServerScheme.parse_price` (svm.py). -/
structure SvmAssetAmount where
  amount : String
  asset : String
  decimals : Nat
  symbol : String
deriving DecidableEq, Repr

/-- Embeds `ExactSvmServerScheme.parse_price` (svm.py).  Note the source
does not strip a leading dollar sign: a price containing "." goes through
`parse_amount` unchanged, anything else through `int(price)`. -/
def ExactSvmServerScheme.parse_price (price : String) (network : String) :
    Except String SvmAssetAmount :=
  match get_default_asset network with
  | none => .error ("Unsupported network: " ++ network)
  | some default_asset =>
    let decimals := default_asset.decimals
    let amountE : Except String Int :=
      if price.toList.contains '.' then parse_amount price.toList decimals
      else
        match pyInt price.toList with
        | none => .error "ValueError: invalid literal for int"
        | some n => .ok n
    match amountE with
    | .error e => .error e
    | .ok amount =>
      .ok ⟨String.mk (intToStr amount), default_asset.mint_address, decimals,
           default_asset.symbol⟩

/-! ## schemes/registry.py — pattern matching -/

/-- True when the string contains no newline; Python `.` in a regex does
not match a newline. -/
def noNewline (s : List Char) : Bool := s.all (fun c => c != '\n')

/-- Tail matcher for the regex `".*" seg1 ".*" seg2 … "$"` produced by
`pattern.replace("*", ".*")`: each `".*"` consumes a newline-free run,
each literal segment must follow, and the final `"$"` accepts the end of
the string or a position just before a terminal newline (CPython `$`
semantics without `re.MULTILINE`). -/
def matchSegsAfterStar : List (List Char) → List Char → Bool
  | [], s => decide (s = []) || decide (s = ['\n'])
  | seg :: rest, s =>
    (List.range (s.length + 1)).any (fun k =>
      noNewline (s.take k) && List.isPrefixOf seg (s.drop k) &&
      matchSegsAfterStar rest ((s.drop k).drop seg.length))

/-- Models `re.match("^" + pattern.replace("*", ".*") + "$", network)` for
a pattern split at its `*`s into literal segments.  The repository's
network patterns contain no other regex metacharacter, so segments match
literally. -/
def regexStarMatch (segs : List (List Char)) (s : List Char) : Bool :=
  match segs with
  | [] => decide (s = []) || decide (s = ['\n'])
  | seg :: rest => List.isPrefixOf seg s && matchSegsAfterStar rest (s.drop seg.length)

/-- Embeds `_matches_network_pattern` (schemes/registry.py). -/
def _matches_network_pattern (pattern network : String) : Bool :=
  if pattern = "*" then true
  else if pattern.toList.contains '*' then
    regexStarMatch (splitOnChar '*' pattern.toList) network.toList
  else decide (pattern = network)

/-! ## schemes/registry.py — SchemeRegistry -/

/-- A registered scheme implementation: the registry only reads its
`scheme` attribute; `ident` distinguishes instances (Python object
identity). -/
structure SchemeImpl where
  scheme : String
  ident : Nat
deriving DecidableEq, Repr

/-- Embeds the state of `SchemeRegistry` (schemes/registry.py):
`_schemes : version → network-pattern → scheme-name → implementation` and
the per-version `_patterns` list. -/
structure SchemeRegistry where
  defaultVersion : Nat
  schemes : List (Nat × List (String × List (String × SchemeImpl)))
  patterns : List (Nat × List String)
deriving DecidableEq, Repr

/-- Embeds `SchemeRegistry.__init__` (schemes/registry.py). -/
def SchemeRegistry.init (defaultVersion : Nat) : SchemeRegistry :=
  ⟨defaultVersion, [(1, []), (2, [])], [(1, []), (2, [])]⟩

/-- Models the Python idiom `v = version or self._default_version`
(`None` and `0` are falsy). -/
def effVersion (version : Option Nat) (dflt : Nat) : Nat :=
  match version with
  | none => dflt
  | some v => if v = 0 then dflt else v

/-- Embeds `SchemeRegistry.register` (schemes/registry.py).  The
`hasattr(scheme, "scheme")` guard cannot fail in the embedding because
`SchemeImpl` always carries a scheme name. -/
def SchemeRegistry.register (reg : SchemeRegistry) (network : String)
    (scheme : SchemeImpl) (version : Option Nat) : SchemeRegistry :=
  let v := effVersion version reg.defaultVersion
  let missing := (alGet v reg.schemes).isNone
  let schemes1 := if missing then alSet v [] reg.schemes else reg.schemes
  let patterns1 := if missing then alSet v [] reg.patterns else reg.patterns
  let net0 := (alGet v schemes1).getD []
  let net1 := if (alGet network net0).isSome then net0 else alSet network [] net0
  let inner := (alGet network net1).getD []
  let net2 := alSet network (alSet scheme.scheme scheme inner) net1
  let schemes2 := alSet v net2 schemes1
  let plist := (alGet v patterns1).getD []
  let plist1 :=
    if network.toList.contains '*' && !(plist.contains network) then plist ++ [network]
    else plist
  ⟨reg.defaultVersion, schemes2, alSet v plist1 patterns1⟩

/-- Embeds `SchemeRegistry.get` (schemes/registry.py): exact network match
first, then the registered wildcard patterns in registration order. -/
def SchemeRegistry.get (reg : SchemeRegistry) (network : String)
    (scheme_name : String) (version : Option Nat) : Option SchemeImpl :=
  let v := effVersion version reg.defaultVersion
  match alGet v reg.schemes with
  | none => none
  | some vmap =>
    let exact :=
      match alGet network vmap with
      | some schemes => alGet scheme_name schemes
      | none => none
    match exact with
    | some s => some s
    | none =>
      ((alGet v reg.patterns).getD []).findSome? (fun pattern =>
        if _matches_network_pattern pattern network then
          alGet scheme_name ((alGet pattern vmap).getD [])
        else none)

/-! ## svm.py — transaction model -/

/-- Embeds the solders `CompiledInstruction` fields the code reads. -/
structure SvmInstruction where
  program_id_index : Nat
  accounts : List Nat
  data : List Nat
deriving DecidableEq, Repr

/-- Embeds the solders message fields the code reads. -/
structure SvmMessage where
  account_keys : List String
  instructions : List SvmInstruction
deriving DecidableEq, Repr

/-- A base64 transaction string as the code sees it after the external
base64/solders layer: either it fails to decode, or it decodes to a
message. -/
inductive SvmTx where
  | undecodable
  | decoded (msg : SvmMessage)
deriving DecidableEq, Repr

/-- Embeds `get_transaction_fee_payer` (svm.py): the first account key of
the decoded message, `none` on decode failure or an empty key list. -/
def get_transaction_fee_payer : SvmTx → Option String
  | .undecodable => none
  | .decoded msg => msg.account_keys.head?

/-- Loop body of `get_token_payer_from_transaction` (svm.py): first token
program instruction with at least 3 accounts whose third account index is
in range; every other instruction falls through to the next. -/
def findTokenPayer (keys : List String) : List SvmInstruction → Option String
  | [] => none
  | ix :: rest =>
    match keys[ix.program_id_index]? with
    | none => findTokenPayer keys rest
    | some program_id =>
      if program_id = TOKEN_PROGRAM_ADDRESS ∨ program_id = TOKEN_2022_PROGRAM_ADDRESS then
        match ix.accounts[2]? with
        | none => findTokenPayer keys rest
        | some authority_idx =>
          match keys[authority_idx]? with
          | none => findTokenPayer keys rest
          | some k => some k
      else findTokenPayer keys rest

/-- Embeds `get_token_payer_from_transaction` (svm.py). -/
def get_token_payer_from_transaction : SvmTx → Option String
  | .undecodable => none
  | .decoded msg => findTokenPayer msg.account_keys msg.instructions

/-- Embeds `TransferDetails` (svm.py). -/
structure TransferDetails where
  source : String
  mint : String
  destination : String
  authority : String
  amount : Nat
  decimals : Nat
deriving DecidableEq, Repr

/-- Little-endian byte-list value, modelling `int.from_bytes(b, "little")`. -/
def leBytesToNat (l : List Nat) : Nat := l.foldr (fun b acc => acc * 256 + b) 0

/-- Loop body of `parse_transfer_checked_instruction` (svm.py): the first
instruction of a token program whose data starts with discriminator 12,
has at least 4 accounts and at least 10 data bytes; out-of-range account
indices yield empty strings, as in the source. -/
def findTransferChecked (keys : List String) : List SvmInstruction → Option TransferDetails
  | [] => none
  | ix :: rest =>
    match keys[ix.program_id_index]? with
    | none => findTransferChecked keys rest
    | some program_id =>
      if program_id = TOKEN_PROGRAM_ADDRESS ∨ program_id = TOKEN_2022_PROGRAM_ADDRESS then
        if ix.data.head? ≠ some 12 then findTransferChecked keys rest
        else if ix.accounts.length < 4 then findTransferChecked keys rest
        else if ix.data.length < 10 then findTransferChecked keys rest
        else
          some ⟨(keys[ix.accounts.getD 0 0]?).getD "",
                (keys[ix.accounts.getD 1 0]?).getD "",
                (keys[ix.accounts.getD 2 0]?).getD "",
                (keys[ix.accounts.getD 3 0]?).getD "",
                leBytesToNat ((ix.data.drop 1).take 8),
                ix.data.getD 9 0⟩
      else findTransferChecked keys rest

/-- Embeds `parse_transfer_checked_instruction` (svm.py). -/
def parse_transfer_checked_instruction : SvmTx → Option TransferDetails
  | .undecodable => none
  | .decoded msg => findTransferChecked msg.account_keys msg.instructions

/-! ## svm.py — facilitator scheme -/

/-- Events recorded when the facilitator scheme calls its injected signer,
used to state which operations a code path performs. -/
inductive SignerEvent where
  | sign
  | simulate
  | send
  | confirm
deriving DecidableEq, Repr

/-- Embeds the `FacilitatorSvmSigner` protocol (svm.py) as pure data: the
managed addresses and the outcome of each signing/RPC capability
(`Except` errors model raised exceptions). -/
structure FacilitatorSvmSigner where
  addresses : List String
  signTx : SvmTx → Option String → String → Except String SvmTx
  simulateTx : SvmTx → String → Except String Bool
  sendTx : SvmTx → String → Except String String
  confirmTx : String → String → Except String Bool

/-- Payload body, modelling `payload.get("payload", {})`: `transaction` is
`none` when the key is missing or the string empty (both falsy), otherwise
the transaction value. The `authorization` entry is never read by
verify/settle. -/
structure SvmPayloadBody where
  transaction : Option SvmTx

/-- A payment payload dict as `ExactSvmFacilitatorScheme` reads it. -/
structure PaymentPayload where
  scheme : Option String
  network : Option String
  body : SvmPayloadBody

/-- The `extra` sub-dict of requirements as the scheme reads it. -/
structure RequirementsExtra where
  feePayer : Option String

/-- A payment requirements dict as `ExactSvmFacilitatorScheme` reads it:
the required amount travels under the key `maxAmountRequired`, which is
what `verify` looks up. -/
structure PaymentRequirements where
  scheme : Option String
  network : Option String
  extra : Option RequirementsExtra
  asset : Option String
  maxAmountRequired : Option String

/-- Result dict of `verify`. -/
structure VerifyResult where
  isValid : Bool
  invalidReason : Option String
  payer : String
deriving DecidableEq, Repr

/-- Result dict of `settle`. -/
structure SettleResult where
  success : Bool
  network : String
  transaction : String
  errorReason : Option String
  payer : String
deriving DecidableEq, Repr

/-- Python falsiness of an optional string (`None` and `""`). -/
def pyFalsyStr (s : Option String) : Bool :=
  match s with
  | none => true
  | some v => v = ""

/-- Embeds `ExactSvmFacilitatorScheme.verify` (svm.py), also recording the
signer operations performed.  A `.error` result models an exception
escaping `verify` (only `int(...)` on a malformed `maxAmountRequired` can
raise; signer exceptions are caught and folded into the result). -/
def ExactSvmFacilitatorScheme.verify (signer : FacilitatorSvmSigner)
    (payload : PaymentPayload) (requirements : PaymentRequirements) :
    Except String VerifyResult × List SignerEvent :=
  match payload.body.transaction with
  | none => (.ok ⟨false, some "invalid_payload_structure", ""⟩, [])
  | some tx =>
    if payload.scheme ≠ some "exact" ∨ requirements.scheme ≠ some "exact" then
      (.ok ⟨false, some "unsupported_scheme", ""⟩, [])
    else if normalize_network (payload.network.getD "") ≠
        normalize_network (requirements.network.getD "") then
      (.ok ⟨false, some "network_mismatch", ""⟩, [])
    else
      let feePayerOpt := requirements.extra.bind (fun e => e.feePayer)
      if pyFalsyStr feePayerOpt then
        (.ok ⟨false, some "invalid_exact_svm_payload_missing_fee_payer", ""⟩, [])
      else
        let fee_payer := feePayerOpt.getD ""
        if fee_payer ∉ signer.addresses then
          (.ok ⟨false, some "fee_payer_not_managed_by_facilitator", ""⟩, [])
        else
          let payerOpt := get_token_payer_from_transaction tx
          if pyFalsyStr payerOpt then
            (.ok ⟨false, some "invalid_exact_svm_payload_no_transfer_instruction", ""⟩, [])
          else
            let payer := payerOpt.getD ""
            match parse_transfer_checked_instruction tx with
            | none =>
              (.ok ⟨false, some "invalid_exact_svm_payload_no_transfer_instruction", payer⟩, [])
            | some transfer =>
              if transfer.authority ∈ signer.addresses then
                (.ok ⟨false,
                  some "invalid_exact_svm_payload_transaction_fee_payer_transferring_funds",
                  payer⟩, [])
              else if some transfer.mint ≠ requirements.asset then
                (.ok ⟨false, some "invalid_exact_svm_payload_mint_mismatch", payer⟩, [])
              else
                match pyInt (requirements.maxAmountRequired.getD "0").toList with
                | none => (.error "ValueError: invalid literal for int", [])
                | some required_amount =>
                  if (transfer.amount : Int) < required_amount then
                    (.ok ⟨false, some "invalid_exact_svm_payload_amount_insufficient", payer⟩, [])
                  else
                    let required_network := requirements.network.getD ""
                    match signer.signTx tx (some fee_payer) required_network with
                    | .error e =>
                      (.ok ⟨false, some ("transaction_simulation_failed: " ++ e), payer⟩,
                       [.sign])
                    | .ok signed_tx =>
                      match signer.simulateTx signed_tx required_network with
                      | .error e =>
                        (.ok ⟨false, some ("transaction_simulation_failed: " ++ e), payer⟩,
                         [.sign, .simulate])
                      | .ok _ => (.ok ⟨true, none, payer⟩, [.sign, .simulate])

/-- Embeds `ExactSvmFacilitatorScheme.settle` (svm.py), recording signer
operations.  Settlement verifies first; exceptions inside the
sign/send/confirm block are caught and returned as failure results. -/
def ExactSvmFacilitatorScheme.settle (signer : FacilitatorSvmSigner)
    (payload : PaymentPayload) (requirements : PaymentRequirements) :
    Except String SettleResult × List SignerEvent :=
  let network := payload.network.getD ""
  match payload.body.transaction with
  | none => (.ok ⟨false, network, "", some "invalid_payload_structure", ""⟩, [])
  | some tx =>
    match ExactSvmFacilitatorScheme.verify signer payload requirements with
    | (.error e, ev) => (.error e, ev)
    | (.ok verify_result, ev) =>
      if !verify_result.isValid then
        (.ok ⟨false, network, "",
          some (verify_result.invalidReason.getD "verification_failed"),
          verify_result.payer⟩, ev)
      else
        let fee_payer := requirements.extra.bind (fun e => e.feePayer)
        let required_network := requirements.network.getD network
        match signer.signTx tx fee_payer required_network with
        | .error e =>
          (.ok ⟨false, network, "", some ("transaction_failed: " ++ e),
            verify_result.payer⟩, ev ++ [.sign])
        | .ok signed_tx =>
          match signer.sendTx signed_tx required_network with
          | .error e =>
            (.ok ⟨false, network, "", some ("transaction_failed: " ++ e),
              verify_result.payer⟩, ev ++ [.sign, .send])
          | .ok signature =>
            match signer.confirmTx signature required_network with
            | .error e =>
              (.ok ⟨false, network, "", some ("transaction_failed: " ++ e),
                verify_result.payer⟩, ev ++ [.sign, .send, .confirm])
            | .ok _ =>
              (.ok ⟨true, network, signature, none, verify_result.payer⟩,
               ev ++ [.sign, .send, .confirm])

/-! ## encoding.py — JSON value model -/

mutual

/-- JSON values as the header envelope layer carries them.  Numbers are
integers: the protocol encodes all amounts as strings and never emits
floats (spec data-model invariant), so the integer fragment of JSON is the
value domain of this layer. -/
inductive Json where
  | null
  | jbool (b : Bool)
  | jnum (i : Int)
  | jstr (s : List Char)
  | jarr (xs : JsonArr)
  | jobj (kvs : JsonObj)

/-- Member list of a JSON array. -/
inductive JsonArr where
  | nil
  | cons (hd : Json) (tl : JsonArr)

/-- Member list of a JSON object, in insertion order (a Python dict). -/
inductive JsonObj where
  | nil
  | cons (k : List Char) (v : Json) (tl : JsonObj)

end

/-- Keys of an object, in order. -/
def objKeys : JsonObj → List (List Char)
  | .nil => []
  | .cons k _ tl => k :: objKeys tl

/-- Models Python `d[k] = v` on a dict represented as a `JsonObj`. -/
def objSet (k : List Char) (v : Json) : JsonObj → JsonObj
  | .nil => .cons k v .nil
  | .cons k2 v2 tl => if k2 = k then .cons k v tl else .cons k2 v2 (objSet k v tl)

/-- Membership test modelling Python `k in d`. -/
def objHasKey (k : List Char) : JsonObj → Bool
  | .nil => false
  | .cons k2 _ tl => k2 = k || objHasKey k tl

/-- Dict construction from parsed members in order, modelling how
`json.loads` fills a fresh dict (later duplicates overwrite in place). -/
def objFromPairs (acc : JsonObj) : List (List Char × Json) → JsonObj
  | [] => acc
  | (k, v) :: rest => objFromPairs (objSet k v acc) rest

mutual

/-- A value all of whose objects have pairwise-distinct keys: exactly the
values that are images of Python data (dicts cannot hold a key twice). -/
def canonicalJson : Json → Bool
  | .null => true
  | .jbool _ => true
  | .jnum _ => true
  | .jstr _ => true
  | .jarr xs => canonicalArr xs
  | .jobj kvs => canonicalObj kvs

def canonicalArr : JsonArr → Bool
  | .nil => true
  | .cons x tl => canonicalJson x && canonicalArr tl

def canonicalObj : JsonObj → Bool
  | .nil => true
  | .cons k v tl => !(objKeys tl).contains k && canonicalJson v && canonicalObj tl

end

/-! ## encoding.py — json.dumps model -/

/-- Lowercase hex digit, as CPython's json encoder emits. -/
def hexDigit (n : Nat) : Char := "0123456789abcdef".toList.getD n '?'

/-- Four-digit hex rendering of a code unit below 0x10000. -/
def toHex4 (n : Nat) : List Char :=
  [hexDigit (n / 4096 % 16), hexDigit (n / 256 % 16), hexDigit (n / 16 % 16),
   hexDigit (n % 16)]

/-- Models the per-character escaping of `json.dumps` with its default
`ensure_ascii=True`: short escapes for the common controls, `\uXXXX` for
the remaining controls and for every non-ASCII character, surrogate pairs
above the BMP. -/
def escChar (c : Char) : List Char :=
  if c = '"' then ['\\', '"']
  else if c = '\\' then ['\\', '\\']
  else if c = '\n' then ['\\', 'n']
  else if c = '\t' then ['\\', 't']
  else if c = '\r' then ['\\', 'r']
  else if c = '\x08' then ['\\', 'b']
  else if c = '\x0c' then ['\\', 'f']
  else if c.toNat < 32 then '\\' :: 'u' :: toHex4 c.toNat
  else if c.toNat < 127 then [c]
  else if c.toNat < 65536 then '\\' :: 'u' :: toHex4 c.toNat
  else
    '\\' :: 'u' :: toHex4 (55296 + (c.toNat - 65536) / 1024) ++
      '\\' :: 'u' :: toHex4 (56320 + (c.toNat - 65536) % 1024)

/-- Escaped body of a JSON string literal. -/
def escString (s : List Char) : List Char := s.foldr (fun c acc => escChar c ++ acc) []

/-- A JSON string literal. -/
def dumpString (s : List Char) : List Char := '"' :: escString s ++ ['"']

mutual

/-- Models `json.dumps` with CPython's default separators
`(", ", ": ")` and `ensure_ascii=True`, on the integer fragment. -/
def jsonDumps : Json → List Char
  | .null => "null".toList
  | .jbool true => "true".toList
  | .jbool false => "false".toList
  | .jnum i => intToStr i
  | .jstr s => dumpString s
  | .jarr xs => '[' :: jsonDumpsArr xs ++ [']']
  | .jobj kvs => '{' :: jsonDumpsObj kvs ++ ['\x7d']

/-- Comma-joined array members. -/
def jsonDumpsArr : JsonArr → List Char
  | .nil => []
  | .cons x .nil => jsonDumps x
  | .cons x tl => jsonDumps x ++ ',' :: ' ' :: jsonDumpsArr tl

/-- Comma-joined object members. -/
def jsonDumpsObj : JsonObj → List Char
  | .nil => []
  | .cons k v .nil => dumpString k ++ ':' :: ' ' :: jsonDumps v
  | .cons k v tl => dumpString k ++ ':' :: ' ' :: jsonDumps v ++ ',' :: ' ' :: jsonDumpsObj tl

end

/-! ## encoding.py — json.loads model -/

/-- JSON whitespace. -/
def isJsonWs (c : Char) : Bool := c = ' ' || c = '\t' || c = '\n' || c = '\r'

/-- Skip insignificant whitespace. -/
def skipWs (s : List Char) : List Char := s.dropWhile isJsonWs

/-- Value of one hex digit. -/
def hexVal (c : Char) : Option Nat :=
  if '0' ≤ c ∧ c ≤ '9' then some (c.toNat - 48)
  else if 'a' ≤ c ∧ c ≤ 'f' then some (c.toNat - 87)
  else if 'A' ≤ c ∧ c ≤ 'F' then some (c.toNat - 55)
  else none

/-- Four hex digits. -/
def parseHex4 : List Char → Option (Nat × List Char)
  | c1 :: c2 :: c3 :: c4 :: rest =>
    match hexVal c1, hexVal c2, hexVal c3, hexVal c4 with
    | some v1, some v2, some v3, some v4 =>
      some (v1 * 4096 + v2 * 256 + v3 * 16 + v4, rest)
    | _, _, _, _ => none
  | _ => none

/-- The escape continuation of the `json.loads` string scanner: handles
the character after a backslash, then resumes through `recur`.  `\\uXXXX`
combines surrogate pairs; lone surrogates (which CPython can represent but
Lean `Char` cannot) fail, and `json.dumps` output never contains them. -/
def parseEscape (recur : List Char → Option (List Char × List Char))
    (esc : List Char) : Option (List Char × List Char) :=
  match esc with
  | [] => none
  | e :: r =>
    if e = '"' then (recur r).map (fun p => ('"' :: p.1, p.2))
    else if e = '\\' then (recur r).map (fun p => ('\\' :: p.1, p.2))
    else if e = '/' then (recur r).map (fun p => ('/' :: p.1, p.2))
    else if e = 'b' then (recur r).map (fun p => ('\x08' :: p.1, p.2))
    else if e = 'f' then (recur r).map (fun p => ('\x0c' :: p.1, p.2))
    else if e = 'n' then (recur r).map (fun p => ('\n' :: p.1, p.2))
    else if e = 'r' then (recur r).map (fun p => ('\r' :: p.1, p.2))
    else if e = 't' then (recur r).map (fun p => ('\t' :: p.1, p.2))
    else if e = 'u' then
      match parseHex4 r with
      | none => none
      | some (n, r2) =>
        if 55296 ≤ n ∧ n ≤ 56319 then
          match r2 with
          | c1 :: c2 :: r3 =>
            if c1 = '\\' ∧ c2 = 'u' then
              match parseHex4 r3 with
              | none => none
              | some (m, r4) =>
                if 56320 ≤ m ∧ m ≤ 57343 then
                  (recur r4).map (fun p =>
                    (Char.ofNat (65536 + (n - 55296) * 1024 + (m - 56320)) :: p.1, p.2))
                else none
            else none
          | _ => none
        else if 56320 ≤ n ∧ n ≤ 57343 then none
        else (recur r2).map (fun p => (Char.ofNat n :: p.1, p.2))
    else none

/-- Body of a JSON string literal up to the closing quote, modelling the
`json.loads` string scanner: short escapes, `\uXXXX` with surrogate-pair
combination, raw control characters rejected. -/
def parseStringBody : Nat → List Char → Option (List Char × List Char)
  | 0, _ => none
  | _ + 1, [] => none
  | fuel + 1, c :: rest =>
    if c = '"' then some ([], rest)
    else if c = '\\' then parseEscape (parseStringBody fuel) rest
    else if c.toNat < 32 then none
    else (parseStringBody fuel rest).map (fun p => (c :: p.1, p.2))

/-- Maximal run of digits with its value. -/
def parseNatDigits (s : List Char) : Option (Nat × List Char) :=
  let ds := s.takeWhile isAsciiDigit
  if ds.isEmpty then none
  else some (ds.foldl (fun a c => a * 10 + digitVal c) 0, s.drop ds.length)

mutual

/-- Models `json.loads` parsing of one value (integer fragment: fraction
and exponent forms, which decode to floats, are outside the value
domain). -/
def parseJsonValue : Nat → List Char → Option (Json × List Char)
  | 0, _ => none
  | fuel + 1, s0 =>
    match skipWs s0 with
    | 'n' :: 'u' :: 'l' :: 'l' :: r => some (.null, r)
    | 't' :: 'r' :: 'u' :: 'e' :: r => some (.jbool true, r)
    | 'f' :: 'a' :: 'l' :: 's' :: 'e' :: r => some (.jbool false, r)
    | '"' :: r => (parseStringBody (r.length + 1) r).map (fun p => (.jstr p.1, p.2))
    | '[' :: r =>
      match skipWs r with
      | ']' :: r2 => some (.jarr .nil, r2)
      | r1 => (parseJsonArrItems fuel r1).map (fun p => (.jarr p.1, p.2))
    | '{' :: r =>
      match skipWs r with
      | '\x7d' :: r2 => some (.jobj .nil, r2)
      | r1 => (parseJsonObjItems fuel r1).map (fun p => (.jobj (objFromPairs .nil p.1), p.2))
    | '-' :: r => (parseNatDigits r).map (fun p => (.jnum (-(p.1 : Int)), p.2))
    | s => (parseNatDigits s).map (fun p => (.jnum (p.1 : Int), p.2))

/-- Array members after the opening bracket (nonempty case). -/
def parseJsonArrItems : Nat → List Char → Option (JsonArr × List Char)
  | 0, _ => none
  | fuel + 1, s =>
    match parseJsonValue fuel s with
    | none => none
    | some (x, r) =>
      match skipWs r with
      | ',' :: r2 => (parseJsonArrItems fuel r2).map (fun p => (.cons x p.1, p.2))
      | ']' :: r2 => some (.cons x .nil, r2)
      | _ => none

/-- Object members after the opening brace (nonempty case), as the raw
key/value list in source order. -/
def parseJsonObjItems : Nat → List Char → Option (List (List Char × Json) × List Char)
  | 0, _ => none
  | fuel + 1, s =>
    match skipWs s with
    | '"' :: r =>
      match parseStringBody (r.length + 1) r with
      | none => none
      | some (k, r2) =>
        match skipWs r2 with
        | ':' :: r3 =>
          match parseJsonValue fuel r3 with
          | none => none
          | some (v, r4) =>
            match skipWs r4 with
            | ',' :: r5 => (parseJsonObjItems fuel r5).map (fun p => ((k, v) :: p.1, p.2))
            | '\x7d' :: r5 => some ([(k, v)], r5)
            | _ => none
        | _ => none
    | _ => none

end

/-- Models `json.loads`: parse one value and require only whitespace to
remain. -/
def jsonLoads (s : List Char) : Option Json :=
  match parseJsonValue (s.length + 1) s with
  | none => none
  | some (x, rest) => if skipWs rest = [] then some x else none

/-! ## encoding.py — base64 and UTF-8 models -/

/-- The standard base64 alphabet. -/
def b64Alphabet : List Char :=
  "ABCDEFGHIJKLMNOPQRSTUVWXYZabcdefghijklmnopqrstuvwxyz0123456789+/".toList

/-- Alphabet character of a sextet. -/
def b64Char (n : Nat) : Char := b64Alphabet.getD n '?'

/-- Sextet value of an alphabet character. -/
def b64CharVal (c : Char) : Option Nat := b64Alphabet.findIdx? (fun d => d = c)

/-- Models `base64.b64encode` on a byte list. -/
def b64encode : List Nat → List Char
  | [] => []
  | [a] => [b64Char (a / 4), b64Char (a % 4 * 16), '=', '=']
  | [a, b] => [b64Char (a / 4), b64Char (a % 4 * 16 + b / 16), b64Char (b % 16 * 4), '=']
  | a :: b :: c :: rest =>
    b64Char (a / 4) :: b64Char (a % 4 * 16 + b / 16) :: b64Char (b % 16 * 4 + c / 64) ::
      b64Char (c % 64) :: b64encode rest

/-- Four-character groups of filtered base64 input; padding only in the
final group.  Returns `none` where CPython raises `binascii.Error`. -/
def b64decodeCore : List Char → Option (List Nat)
  | [] => some []
  | c1 :: c2 :: c3 :: c4 :: rest =>
    match b64CharVal c1, b64CharVal c2 with
    | some v1, some v2 =>
      if c3 = '=' then
        if c4 = '=' ∧ rest = [] then some [v1 * 4 + v2 / 16] else none
      else
        match b64CharVal c3 with
        | some v3 =>
          if c4 = '=' then
            if rest = [] then some [v1 * 4 + v2 / 16, v2 % 16 * 16 + v3 / 4] else none
          else
            match b64CharVal c4 with
            | some v4 =>
              (b64decodeCore rest).map (fun bs =>
                (v1 * 4 + v2 / 16) :: (v2 % 16 * 16 + v3 / 4) :: (v3 % 4 * 64 + v4) :: bs)
            | none => none
        | none => none
    | _, _ => none
  | _ => none

/-- Models `base64.b64decode` with its default `validate=False`: characters
outside the alphabet (other than padding) are discarded before decoding. -/
def b64decode (s : List Char) : Option (List Nat) :=
  b64decodeCore (s.filter (fun c => (b64CharVal c).isSome || c = '='))

/-- Models CPython UTF-8 encoding of one scalar value. -/
def utf8EncodeChar (c : Char) : List Nat :=
  let n := c.toNat
  if n < 128 then [n]
  else if n < 2048 then [192 + n / 64, 128 + n % 64]
  else if n < 65536 then [224 + n / 4096, 128 + n / 64 % 64, 128 + n % 64]
  else [240 + n / 262144, 128 + n / 4096 % 64, 128 + n / 64 % 64, 128 + n % 64]

/-- Models `s.encode("utf-8")`. -/
def utf8Encode (s : List Char) : List Nat :=
  s.foldr (fun c acc => utf8EncodeChar c ++ acc) []

/-- One scalar value of strict UTF-8 decoding: the decoded character and
the remaining bytes, `none` where CPython raises `UnicodeDecodeError`
(malformed, overlong and surrogate sequences rejected). -/
def utf8DecodeOne (l : List Nat) : Option (Char × List Nat) :=
  match l with
  | [] => none
  | b1 :: rest =>
    if b1 < 128 then some (Char.ofNat b1, rest)
    else if b1 < 192 then none
    else if b1 < 224 then
      match rest with
      | b2 :: rest2 =>
        if 128 ≤ b2 ∧ b2 < 192 then
          let n := (b1 - 192) * 64 + (b2 - 128)
          if 128 ≤ n then some (Char.ofNat n, rest2) else none
        else none
      | _ => none
    else if b1 < 240 then
      match rest with
      | b2 :: b3 :: rest2 =>
        if (128 ≤ b2 ∧ b2 < 192) ∧ (128 ≤ b3 ∧ b3 < 192) then
          let n := (b1 - 224) * 4096 + (b2 - 128) * 64 + (b3 - 128)
          if 2048 ≤ n ∧ ¬(55296 ≤ n ∧ n ≤ 57343) then some (Char.ofNat n, rest2)
          else none
        else none
      | _ => none
    else if b1 < 248 then
      match rest with
      | b2 :: b3 :: b4 :: rest2 =>
        if (128 ≤ b2 ∧ b2 < 192) ∧ (128 ≤ b3 ∧ b3 < 192) ∧ (128 ≤ b4 ∧ b4 < 192) then
          let n := (b1 - 240) * 262144 + (b2 - 128) * 4096 + (b3 - 128) * 64 + (b4 - 128)
          if 65536 ≤ n ∧ n ≤ 1114111 then some (Char.ofNat n, rest2) else none
        else none
      | _ => none
    else none

/-- Scalar-at-a-time strict UTF-8 decoding loop; one byte of fuel per
scalar is ample since every scalar consumes at least one byte. -/
def utf8DecodeLoop : Nat → List Nat → Option (List Char)
  | _, [] => some []
  | 0, _ :: _ => none
  | fuel + 1, b :: rest =>
    match utf8DecodeOne (b :: rest) with
    | none => none
    | some (c, rest2) => (utf8DecodeLoop fuel rest2).map (fun cs => c :: cs)

/-- Models `b.decode("utf-8")`: strict decoding, rejecting malformed,
overlong and surrogate sequences (`none` where CPython raises
`UnicodeDecodeError`). -/
def utf8Decode (l : List Nat) : Option (List Char) := utf8DecodeLoop l.length l
decreasing_by all_goals (simp_wf <;> omega)

/-! ## encoding.py — header envelope -/

/-- Embeds `safe_base64_encode` (encoding.py) on string input. -/
def safe_base64_encode (data : List Char) : List Char := b64encode (utf8Encode data)

/-- Embeds `safe_base64_decode` (encoding.py); `none` models a raised
`binascii.Error` or `UnicodeDecodeError`. -/
def safe_base64_decode (data : List Char) : Option (List Char) :=
  (b64decode data).bind utf8Decode

/-- Embeds the body of `BASE64_REGEX.match` for the anchored pattern: a run
of alphabet characters, then at most two padding characters, with `$` also
accepting a single terminal newline. -/
def BASE64_REGEX_match (s : List Char) : Bool :=
  let core := fun (t : List Char) =>
    let rest := t.dropWhile (fun c => (b64CharVal c).isSome)
    decide (rest = []) || decide (rest = ['=']) || decide (rest = ['=', '='])
  core s || (decide (s.getLast? = some '\n') && core s.dropLast)

/-- Embeds `is_valid_base64` (encoding.py). -/
def is_valid_base64 (data : List Char) : Bool :=
  if data.isEmpty then false
  else if data.length % 4 ≠ 0 then false
  else BASE64_REGEX_match data

/-- Embeds `encode_payment_signature_header` (encoding.py), dict input. -/
def encode_payment_signature_header (payment_payload : Json) : List Char :=
  safe_base64_encode (jsonDumps payment_payload)

/-- Embeds `decode_payment_signature_header` (encoding.py).  Errors
distinguish the base64 validity check, the exceptions of the base64/utf-8
layer (which are not `JSONDecodeError` and escape), and JSON failure. -/
def decode_payment_signature_header (header_value : List Char) : Except String Json :=
  if ¬ is_valid_base64 header_value then
    .error "Invalid payment signature header: not valid base64"
  else
    match safe_base64_decode header_value with
    | none => .error "binascii.Error or UnicodeDecodeError"
    | some s =>
      match jsonLoads s with
      | none => .error "Invalid payment signature header: invalid JSON"
      | some x => .ok x

/-- Embeds `encode_payment_required_header` (encoding.py), dict input. -/
def encode_payment_required_header (payment_required : Json) : List Char :=
  safe_base64_encode (jsonDumps payment_required)

/-- Embeds `decode_payment_required_header` (encoding.py). -/
def decode_payment_required_header (header_value : List Char) : Except String Json :=
  if ¬ is_valid_base64 header_value then
    .error "Invalid payment required header: not valid base64"
  else
    match safe_base64_decode header_value with
    | none => .error "binascii.Error or UnicodeDecodeError"
    | some s =>
      match jsonLoads s with
      | none => .error "Invalid payment required header: invalid JSON"
      | some x => .ok x

/-- Embeds `decode_payment_response_header` (encoding.py). -/
def decode_payment_response_header (header_value : List Char) : Except String Json :=
  if ¬ is_valid_base64 header_value then
    .error "Invalid payment response header: not valid base64"
  else
    match safe_base64_decode header_value with
    | none => .error "binascii.Error or UnicodeDecodeError"
    | some s =>
      match jsonLoads s with
      | none => .error "Invalid payment response header: invalid JSON"
      | some x => .ok x

/-! ## Proof-support functions over the JSON model -/

/-- The member list of an object as raw key/value pairs, in order: the
list `parseJsonObjItems` recovers from `json.dumps` output. -/
def objPairs : JsonObj → List (List Char × Json)
  | .nil => []
  | .cons k v tl => (k, v) :: objPairs tl

/-! ## encoding.py — `dict()` model and the response header encoder -/

/-- Python `==` on the hashable JSON scalars, as `dict` compares keys:
`True == 1` and `False == 0`; containers are unhashable and never reach
this comparison. -/
def pyKeyEq : Json → Json → Bool
  | .jstr s, .jstr t => s = t
  | .jnum i, .jnum j => i = j
  | .jbool a, .jbool b => a = b
  | .jbool true, .jnum i => i = 1
  | .jbool false, .jnum i => i = 0
  | .jnum i, .jbool true => i = 1
  | .jnum i, .jbool false => i = 0
  | .null, .null => true
  | _, _ => false

/-- One element of a dictionary update sequence, as `dict(seq)` reads it:
an iterable of length two — a two-element array whose first component,
the key, must be hashable, or a two-character string (a pair of
one-character strings).  Errors model the `TypeError`/`ValueError`
`dict` raises on anything else. -/
def dictSeqElem : Json → Except String (Json × Json)
  | .jarr (.cons k (.cons v .nil)) =>
    match k with
    | .jarr _ => .error "TypeError: unhashable type"
    | .jobj _ => .error "TypeError: unhashable type"
    | _ => .ok (k, v)
  | .jarr .nil =>
    .error "ValueError: dictionary update sequence element has wrong length"
  | .jarr (.cons _ .nil) =>
    .error "ValueError: dictionary update sequence element has wrong length"
  | .jarr (.cons _ (.cons _ (.cons _ _))) =>
    .error "ValueError: dictionary update sequence element has wrong length"
  | .jstr (c1 :: c2 :: []) => .ok (.jstr [c1], .jstr [c2])
  | .jstr _ =>
    .error "ValueError: dictionary update sequence element has wrong length"
  | _ =>
    .error "TypeError: cannot convert dictionary update sequence element to a sequence"

/-- Python `d[k] = v` on a dict carried as key/value entries: an entry
whose key is `==`-equal keeps its place and its original key object and
only the value is replaced; otherwise the pair is appended. -/
def pyDictSet (k : Json) (v : Json) : List (Json × Json) → List (Json × Json)
  | [] => [(k, v)]
  | (k2, v2) :: rest =>
    if pyKeyEq k2 k then (k2, v) :: rest else (k2, v2) :: pyDictSet k v rest

/-- Python `k in d` under `==`-equality of keys. -/
def pyDictHasKey (k : Json) : List (Json × Json) → Bool
  | [] => false
  | (k2, _) :: rest => pyKeyEq k2 k || pyDictHasKey k rest

/-- Builds the entries of `dict(seq)` by successive item assignment, so
a later duplicate key overwrites the earlier value in place. -/
def dictOfSeq (acc : List (Json × Json)) : List (Json × Json) → List (Json × Json)
  | [] => acc
  | (k, v) :: rest => dictOfSeq (pyDictSet k v acc) rest

/-- Converts the members of a sequence argument of `dict` in order,
failing at the first element that is not a key/value pair. -/
def dictSeqElems : JsonArr → Except String (List (Json × Json))
  | .nil => .ok []
  | .cons x tl =>
    match dictSeqElem x with
    | .error e => .error e
    | .ok p =>
      match dictSeqElems tl with
      | .error e => .error e
      | .ok ps => .ok (p :: ps)

/-- Models `dict(x)` on the JSON fragment: a mapping is copied entry for
entry; a sequence must consist of key/value pairs, later duplicates
overwriting earlier values; an empty string is an empty iterable while a
nonempty string yields one-character elements that are too short to be
pairs; numbers, booleans and null are not iterable. -/
def pyDict : Json → Except String (List (Json × Json))
  | .jobj kvs => .ok ((objPairs kvs).map (fun p => (Json.jstr p.1, p.2)))
  | .jarr xs =>
    match dictSeqElems xs with
    | .error e => .error e
    | .ok ps => .ok (dictOfSeq [] ps)
  | .jstr [] => .ok []
  | .jstr (_ :: _) =>
    .error "ValueError: dictionary update sequence element has wrong length"
  | _ => .error "TypeError: object is not iterable"

/-- `json.dumps` key coercion for dict keys: strings stand as they are,
integers and the constants render as their JSON text.  Containers are
unhashable, so they never occur as keys. -/
def dumpKey : Json → List Char
  | .jstr s => s
  | .jnum i => intToStr i
  | .jbool true => "true".toList
  | .jbool false => "false".toList
  | .null => "null".toList
  | .jarr _ => []
  | .jobj _ => []

/-- The dict, keys coerced, as the object `json.dumps` serializes: each
key rendered by `dumpKey` in place and without merging — distinct dict
keys that coerce to the same text are emitted twice, as CPython does. -/
def dumpDict : List (Json × Json) → JsonObj
  | [] => .nil
  | (k, v) :: rest => .cons (dumpKey k) v (dumpDict rest)

/-- Embeds `encode_payment_response_header` (encoding.py) on dict/JSON
input (the pydantic `model_dump` branch lies outside the data model):
the response is first converted with `dict(payment_response)` — which
raises for anything that is neither a mapping nor a key/value sequence —
then a truthy `requirements` argument is merged under the key
`"requirements"` when the dict lacks it, and the result is dumped and
base64-encoded. -/
def encode_payment_response_header (payment_response : Json)
    (requirements : Option JsonObj) : Except String (List Char) :=
  match pyDict payment_response with
  | .error e => .error e
  | .ok entries =>
    let data :=
      match requirements with
      | none => entries
      | some .nil => entries
      | some reqs =>
        if pyDictHasKey (.jstr "requirements".toList) entries then entries
        else pyDictSet (.jstr "requirements".toList) (.jobj reqs) entries
    .ok (safe_base64_encode (jsonDumps (.jobj (dumpDict data))))

/-- Concatenation of two objects (no key merging). -/
def objAppend : JsonObj → JsonObj → JsonObj
  | .nil, o => o
  | .cons k v tl, o => .cons k v (objAppend tl o)

/-- True when the list does not start with an ASCII digit, so that a
maximal digit run ending just before it is not extended. -/
def headNotDigit : List Char → Bool
  | [] => true
  | c :: _ => !isAsciiDigit c

mutual

/-- Recursion fuel sufficient for `parseJsonValue` on the dump of a
value. -/
def jsonNeed : Json → Nat
  | .null => 1
  | .jbool _ => 1
  | .jnum _ => 1
  | .jstr _ => 1
  | .jarr xs => jsonArrNeed xs + 1
  | .jobj kvs => jsonObjNeed kvs + 1

/-- Fuel sufficient for `parseJsonArrItems` on dumped members. -/
def jsonArrNeed : JsonArr → Nat
  | .nil => 1
  | .cons x tl => max (jsonNeed x) (jsonArrNeed tl) + 1

/-- Fuel sufficient for `parseJsonObjItems` on dumped members. -/
def jsonObjNeed : JsonObj → Nat
  | .nil => 1
  | .cons _ v tl => max (jsonNeed v) (jsonObjNeed tl) + 1

end

/-! ## Decimal model and the EVM/TON/TRON server parse_price -/

/-- A plain decimal literal as `decimal.Decimal(s)` reads it (sign,
mantissa, scale).  The exponent and special forms `Decimal` also accepts
are never produced by the price strings being modelled. -/
structure PyDecimal where
  neg : Bool
  mantissa : Nat
  scale : Nat
deriving DecidableEq, Repr

/-- All ASCII digits. -/
def allDigits (s : List Char) : Bool := s.all isAsciiDigit

/-- Value of a digit run. -/
def digitsValue (s : List Char) : Nat := s.foldl (fun a c => a * 10 + digitVal c) 0

/-- Models `decimal.Decimal(s)` on plain literals
(`[sign] digits [. digits]`, at least one digit overall). -/
def pyDecimalParse (s : List Char) : Option PyDecimal :=
  let signed :=
    match s with
    | '-' :: r => (true, r)
    | '+' :: r => (false, r)
    | r => (false, r)
  match splitOnChar '.' signed.2 with
  | [ip] =>
    if ip ≠ [] ∧ allDigits ip then some ⟨signed.1, digitsValue ip, 0⟩ else none
  | [ip, fp] =>
    if (ip ≠ [] ∨ fp ≠ []) ∧ allDigits ip ∧ allDigits fp then
      some ⟨signed.1, digitsValue (ip ++ fp), fp.length⟩
    else none
  | _ => none

/-- Models `int(dec * Decimal(10 ** decimals))`: exact rational product,
truncated toward zero. -/
def decimalAtomic (dec : PyDecimal) (decimals : Nat) : Int :=
  let mag : Nat := dec.mantissa * 10 ^ decimals / 10 ^ dec.scale
  if dec.neg then -(mag : Int) else (mag : Int)

/-- Result shape of the EVM/TON/TRON server `parse_price`. -/
structure ServerAssetAmount where
  amount : String
  asset : String
deriving DecidableEq, Repr

/-- Modelled from the spec: `t402.chains.get_default_token_address` lives
in the `t402/chains.py` module, which is absent from the sources; per the
spec the default stable asset on EVM networks is USDC.  The address value
itself is opaque to every claim, so the model names it after the chain. -/
def chains_get_default_token_address (chain_id : String) (symbol : String) : String :=
  symbol ++ ":" ++ chain_id

/-- Modelled from the spec: `t402.chains.get_token_decimals` is absent
from the sources; the claims fix networks whose default stable asset has 6
decimals. -/
def chains_get_token_decimals (chain_id : String) (asset : String) : Nat := 6

/-- Embeds `ExactEvmServerScheme._get_chain_id`
(schemes/evm/exact/server.py).  The legacy branch consults the absent
`t402.chains.get_chain_id` table; modelled from the spec as failing for
the non-CAIP names no claim exercises. -/
def ExactEvmServerScheme._get_chain_id (network : String) : Except String Int :=
  if List.isPrefixOf "eip155:".toList network.toList then
    match pyInt ((splitOnChar ':' network.toList).getD 1 []) with
    | some i => .ok i
    | none => .error "ValueError: invalid literal for int"
  else .error ("Unknown network: " ++ network)

/-- Embeds the string branch of `ExactEvmServerScheme.parse_price`
(schemes/evm/exact/server.py): strip an optional leading dollar sign,
parse as `Decimal`, convert to atomic units of the network's default USDC
asset. -/
def ExactEvmServerScheme.parse_price (price : String) (network : String) :
    Except String ServerAssetAmount :=
  match ExactEvmServerScheme._get_chain_id network with
  | .error e => .error e
  | .ok chain_id =>
    let chain_id_str := intToStrS chain_id
    let asset_address := chains_get_default_token_address chain_id_str "usdc"
    let decimals := chains_get_token_decimals chain_id_str asset_address
    let stripped :=
      match price.toList with
      | '$' :: r => r
      | r => r
    match pyDecimalParse stripped with
    | none => .error "decimal.InvalidOperation"
    | some dec =>
      .ok ⟨String.mk (intToStr (decimalAtomic dec decimals)), asset_address⟩

/-- Embeds the TON jetton config rows of `NETWORK_CONFIGS` (ton.py) read
through `get_default_asset`: USDT master address with `DEFAULT_DECIMALS = 6`. -/
def ton_default_asset : List (String × (String × Nat)) :=
  [("ton:mainnet", ("EQCxE6mUtQJKFnGfaROTKOt1lZbDiiX1kCixRv7Nw2Id_sDs", 6)),
   ("ton:testnet", ("kQBqSpvo4S87mX9tTc4FX3Sfqf4uSp3Tx-Fz4RBUfTRWBx", 6))]

/-- Embeds `ExactTonServerScheme._normalize_network`
(schemes/ton/exact/server.py). -/
def ExactTonServerScheme._normalize_network (network : String) : Except String String :=
  if List.isPrefixOf "ton:".toList network.toList then
    if network = "ton:mainnet" ∨ network = "ton:testnet" then .ok network
    else .error ("Unknown TON network: " ++ network)
  else
    let lower := String.mk (network.toList.map Char.toLower)
    if lower = "mainnet" ∨ lower = "ton-mainnet" then .ok "ton:mainnet"
    else if lower = "testnet" ∨ lower = "ton-testnet" then .ok "ton:testnet"
    else .error ("Unknown network: " ++ network)

/-- Embeds the string branch of `ExactTonServerScheme.parse_price`
(schemes/ton/exact/server.py). -/
def ExactTonServerScheme.parse_price (price : String) (network : String) :
    Except String ServerAssetAmount :=
  match ExactTonServerScheme._normalize_network network with
  | .error e => .error e
  | .ok network_str =>
    match alGet network_str ton_default_asset with
    | none => .error ("Unsupported TON network: " ++ network)
    | some asset =>
      let stripped :=
        match price.toList with
        | '$' :: r => r
        | r => r
      match pyDecimalParse stripped with
      | none => .error "decimal.InvalidOperation"
      | some dec =>
        .ok ⟨String.mk (intToStr (decimalAtomic dec asset.2)), asset.1⟩

/-- Embeds the TRC20 config rows of `NETWORK_CONFIGS` (tron.py) read
through `get_default_asset`: USDT contract address with
`DEFAULT_DECIMALS = 6`. -/
def tron_default_asset : List (String × (String × Nat)) :=
  [("tron:mainnet", ("TR7NHqjeKQxGTCi8q8ZY4pL8otSzgjLj6t", 6)),
   ("tron:nile", ("TXYZopYRdj2D9XRtbG411XZZ3kM5VkAeBf", 6)),
   ("tron:shasta", ("TG3XXyExBkPp9nzdajDZsozEu4BkaSJozs", 6))]

/-- Embeds `normalize_network` (tron.py), as used by the TRON server
scheme. -/
def tron_normalize_network (network : String) : Except String String :=
  if (alGet network tron_default_asset).isSome then .ok network
  else
    let lower := String.mk (network.toList.map Char.toLower)
    if lower = "mainnet" ∨ lower = "tron" then .ok "tron:mainnet"
    else if lower = "nile" ∨ lower = "tron-nile" then .ok "tron:nile"
    else if lower = "shasta" ∨ lower = "tron-shasta" then .ok "tron:shasta"
    else .error ("Unsupported TRON network: " ++ network)

/-- Embeds the string branch of `ExactTronServerScheme.parse_price`
(schemes/tron/exact/server.py). -/
def ExactTronServerScheme.parse_price (price : String) (network : String) :
    Except String ServerAssetAmount :=
  match tron_normalize_network network with
  | .error e => .error e
  | .ok network_str =>
    match alGet network_str tron_default_asset with
    | none => .error ("Unsupported TRON network: " ++ network)
    | some asset =>
      let stripped :=
        match price.toList with
        | '$' :: r => r
        | r => r
      match pyDecimalParse stripped with
      | none => .error "decimal.InvalidOperation"
      | some dec =>
        .ok ⟨String.mk (intToStr (decimalAtomic dec asset.2)), asset.1⟩

/-! ## types.py — PaymentRequirementsV2 amount validator -/

/-- Embeds the `validate_amount` field validator of `PaymentRequirementsV2`
(types.py): `int(v)` must succeed; the original string is kept. -/
def PaymentRequirementsV2.validate_amount (v : String) : Except String String :=
  match pyInt v.toList with
  | none => .error "amount must be an integer encoded as a string"
  | some _ => .ok v

/-! ## Concrete instances used by witnesses and counterexamples -/

/-- A facilitator signer whose capabilities all succeed, managing one
address; used to witness the amount-floor claim. -/
def c1wSigner : FacilitatorSvmSigner :=
  ⟨["FeePayerC1"], fun tx _ _ => .ok tx, fun _ _ => .ok true, fun _ _ => .ok "sigC1",
   fun _ _ => .ok true⟩

/-- A message carrying a TransferChecked of 999999 atomic units
(little-endian bytes 63 66 15) of mint `MintC1`. -/
def c1wMsg : SvmMessage :=
  ⟨["FeePayerC1", "SrcC1", "MintC1", "DestC1", "AuthC1", TOKEN_PROGRAM_ADDRESS],
   [⟨5, [1, 2, 3, 4], [12, 63, 66, 15, 0, 0, 0, 0, 0, 6]⟩]⟩

def c1wPayload : PaymentPayload :=
  ⟨some "exact", some SOLANA_MAINNET, ⟨some (.decoded c1wMsg)⟩⟩

def c1wReqs : PaymentRequirements :=
  ⟨some "exact", some SOLANA_MAINNET, some ⟨some "FeePayerC1"⟩, some "MintC1",
   some "1000000"⟩

/-- A signer managing the very address that authorizes the transfer in
`c2wMsg`: the self-dealing scenario. -/
def c2wSigner : FacilitatorSvmSigner :=
  ⟨["AuthC2"], fun tx _ _ => .ok tx, fun _ _ => .ok true, fun _ _ => .ok "sigC2",
   fun _ _ => .ok true⟩

/-- TransferChecked of 1000000 units whose authority account is `AuthC2`. -/
def c2wMsg : SvmMessage :=
  ⟨["FeeC2", "SrcC2", "MintC2", "DestC2", "AuthC2", TOKEN_PROGRAM_ADDRESS],
   [⟨5, [1, 2, 3, 4], [12, 64, 66, 15, 0, 0, 0, 0, 0, 6]⟩]⟩

def c2wPayload : PaymentPayload :=
  ⟨some "exact", some SOLANA_MAINNET, ⟨some (.decoded c2wMsg)⟩⟩

def c2wReqs : PaymentRequirements :=
  ⟨some "exact", some SOLANA_MAINNET, some ⟨some "AuthC2"⟩, some "MintC2",
   some "1000000"⟩

/-- A benign signer (all capabilities succeed) managing `FeePayerC3`. -/
def c3Signer : FacilitatorSvmSigner :=
  ⟨["FeePayerC3"], fun tx _ _ => .ok tx, fun _ _ => .ok true, fun _ _ => .ok "sigC3",
   fun _ _ => .ok true⟩

/-- A message whose first account key — the transaction fee payer — is the
unmanaged address `MalloryC3`, yet whose TransferChecked satisfies every
check `verify` makes. -/
def c3Msg : SvmMessage :=
  ⟨["MalloryC3", "SrcC3", "MintC3", "DestC3", "AuthC3", TOKEN_PROGRAM_ADDRESS],
   [⟨5, [1, 2, 3, 4], [12, 64, 66, 15, 0, 0, 0, 0, 0, 6]⟩]⟩

def c3Tx : SvmTx := .decoded c3Msg

def c3Payload : PaymentPayload := ⟨some "exact", some SOLANA_MAINNET, ⟨some c3Tx⟩⟩

def c3Reqs : PaymentRequirements :=
  ⟨some "exact", some SOLANA_MAINNET, some ⟨some "FeePayerC3"⟩, some "MintC3",
   some "1000000"⟩

/-- Signer and underpaying payload used to witness settle-implies-verify. -/
def c4wSigner : FacilitatorSvmSigner :=
  ⟨["FeePayerC4"], fun tx _ _ => .ok tx, fun _ _ => .ok true, fun _ _ => .ok "sigC4",
   fun _ _ => .ok true⟩

/-- TransferChecked of 999999 units against a requirement of 1000000. -/
def c4wMsg : SvmMessage :=
  ⟨["FeePayerC4", "SrcC4", "MintC4", "DestC4", "AuthC4", TOKEN_PROGRAM_ADDRESS],
   [⟨5, [1, 2, 3, 4], [12, 63, 66, 15, 0, 0, 0, 0, 0, 6]⟩]⟩

def c4wPayload : PaymentPayload :=
  ⟨some "exact", some SOLANA_MAINNET, ⟨some (.decoded c4wMsg)⟩⟩

def c4wReqs : PaymentRequirements :=
  ⟨some "exact", some SOLANA_MAINNET, some ⟨some "FeePayerC4"⟩, some "MintC4",
   some "1000000"⟩

/-! ## Helper lemmas: decimal digit strings -/

theorem toNat_ofNat_valid (n : Nat) (h : n.isValidChar) : (Char.ofNat n).toNat = n := by
  unfold Char.ofNat
  rw [dif_pos h]
  rfl

theorem toNat_ofNat_small (n : Nat) (h : n < 55296) : (Char.ofNat n).toNat = n :=
  toNat_ofNat_valid n (Or.inl h)

theorem natToDigitsRevAux_irrel (n : Nat) :
    ∀ f1 f2 : Nat, n < f1 → n < f2 →
      natToDigitsRevAux f1 n = natToDigitsRevAux f2 n := by
  induction n using Nat.strong_induction_on with
  | _ n ih =>
    intro f1 f2 h1 h2
    rcases f1 with _ | g1
    · omega
    rcases f2 with _ | g2
    · omega
    rw [natToDigitsRevAux, natToDigitsRevAux]
    by_cases h10 : n < 10
    · rw [if_pos h10, if_pos h10]
    · rw [if_neg h10, if_neg h10]
      congr 1
      have hdivlt : n / 10 < n := Nat.div_lt_self (by omega) (by omega)
      exact ih (n / 10) hdivlt g1 g2 (by omega) (by omega)

theorem natToDigitsRev_eq (n : Nat) :
    natToDigitsRev n =
      if n < 10 then [Char.ofNat (48 + n)]
      else Char.ofNat (48 + n % 10) :: natToDigitsRev (n / 10) := by
  show natToDigitsRevAux (n + 1) n = _
  rw [natToDigitsRevAux]
  by_cases h10 : n < 10
  · rw [if_pos h10, if_pos h10]
  · rw [if_neg h10, if_neg h10]
    congr 1
    have hdivlt : n / 10 < n := Nat.div_lt_self (by omega) (by omega)
    exact natToDigitsRevAux_irrel (n / 10) n (n / 10 + 1) (by omega) (by omega)

theorem natToDigitsRev_digits (n : Nat) :
    ∀ c ∈ natToDigitsRev n, isAsciiDigit c = true := by
  induction n using Nat.strong_induction_on with
  | _ n ih =>
    intro c hc
    rw [natToDigitsRev_eq] at hc
    by_cases h10 : n < 10
    · rw [if_pos h10] at hc
      simp at hc
      subst hc
      simp [isAsciiDigit, toNat_ofNat_small (48 + n) (by omega)]
      omega
    · rw [if_neg h10, List.mem_cons] at hc
      rcases hc with hc | hc
      · subst hc
        have h10b : n % 10 < 10 := Nat.mod_lt n (by omega)
        simp [isAsciiDigit, toNat_ofNat_small (48 + n % 10) (by omega)]
        omega
      · exact ih (n / 10) (Nat.div_lt_self (by omega) (by omega)) c hc

theorem natToStr_digits (n : Nat) : ∀ c ∈ natToStr n, isAsciiDigit c = true := by
  intro c hc
  exact natToDigitsRev_digits n c (List.mem_reverse.mp hc)

theorem natToDigitsRev_ne_nil (n : Nat) : natToDigitsRev n ≠ [] := by
  rw [natToDigitsRev_eq]
  split <;> simp

theorem natToStr_ne_nil (n : Nat) : natToStr n ≠ [] := by
  unfold natToStr
  simpa using natToDigitsRev_ne_nil n

theorem digitVal_ofNat (d : Nat) (h : d < 10) : digitVal (Char.ofNat (48 + d)) = d := by
  simp [digitVal, toNat_ofNat_small (48 + d) (by omega)]

theorem natToStr_foldl (n : Nat) : ∀ acc : Nat,
    (natToStr n).foldl (fun a c => a * 10 + digitVal c) acc =
      acc * 10 ^ (natToStr n).length + n := by
  induction n using Nat.strong_induction_on with
  | _ n ih =>
    intro acc
    unfold natToStr
    rw [natToDigitsRev_eq]
    by_cases h10 : n < 10
    · rw [if_pos h10]
      simp [digitVal_ofNat n h10]
    · rw [if_neg h10]
      have hmod : n % 10 < 10 := Nat.mod_lt n (by omega)
      have hdivlt : n / 10 < n := Nat.div_lt_self (by omega) (by omega)
      have hrec := ih (n / 10) hdivlt acc
      unfold natToStr at hrec
      simp only [List.reverse_cons, List.foldl_append, List.foldl_cons, List.foldl_nil,
        List.length_append, List.length_cons, List.length_nil]
      rw [hrec, digitVal_ofNat (n % 10) hmod]
      have hpow : 10 ^ ((natToDigitsRev (n / 10)).reverse.length + (0 + 1)) =
          10 ^ (natToDigitsRev (n / 10)).reverse.length * 10 := by
        rw [pow_succ]
      rw [hpow]
      have := Nat.div_add_mod n 10
      ring_nf
      omega

theorem pyDigitsCore_all_digits (ds : List Char) :
    ∀ acc : Nat, (∀ c ∈ ds, isAsciiDigit c = true) →
      pyDigitsCore acc ds = some (ds.foldl (fun a c => a * 10 + digitVal c) acc) := by
  induction ds with
  | nil => intro acc _; rfl
  | cons c rest ih =>
    intro acc h
    have hc : isAsciiDigit c = true := h c (by simp)
    rw [pyDigitsCore.eq_def]
    simp only [hc, if_true, List.foldl_cons]
    exact ih _ (fun d hd => h d (by simp [hd]))

theorem pyParseDigits_natToStr (n : Nat) : pyParseDigits (natToStr n) = some n := by
  rcases hcons : natToStr n with _ | ⟨c, rest⟩
  · exact absurd hcons (natToStr_ne_nil n)
  · have hdigits := natToStr_digits n
    rw [hcons] at hdigits
    have hc : isAsciiDigit c = true := hdigits c (by simp)
    rw [pyParseDigits, if_pos hc]
    rw [pyDigitsCore_all_digits rest (digitVal c) (fun d hd => hdigits d (by simp [hd]))]
    have hfold := natToStr_foldl n 0
    rw [hcons] at hfold
    simp only [List.foldl_cons, Nat.zero_mul, Nat.zero_add] at hfold
    rw [hfold]

theorem isAsciiDigit_not_space (c : Char) (h : isAsciiDigit c = true) :
    isPySpace c = false := by
  simp [isAsciiDigit] at h
  simp [isPySpace]
  omega

theorem dropWhile_eq_self_of_all (p : Char → Bool) (s : List Char)
    (h : ∀ c ∈ s, p c = false) : s.dropWhile p = s := by
  cases s with
  | nil => rfl
  | cons c rest => simp [List.dropWhile, h c (by simp)]

theorem pyStrip_of_no_space (s : List Char) (h : ∀ c ∈ s, isPySpace c = false) :
    pyStrip s = s := by
  unfold pyStrip
  rw [dropWhile_eq_self_of_all _ s h,
    dropWhile_eq_self_of_all _ s.reverse (fun c hc => h c (List.mem_reverse.mp hc)),
    List.reverse_reverse]

theorem isAsciiDigit_ne_minus (c : Char) (h : isAsciiDigit c = true) : c ≠ '-' := by
  intro hEq
  subst hEq
  simp [isAsciiDigit] at h

theorem isAsciiDigit_ne_plus (c : Char) (h : isAsciiDigit c = true) : c ≠ '+' := by
  intro hEq
  subst hEq
  simp [isAsciiDigit] at h

theorem pyInt_natToStr (n : Nat) : pyInt (natToStr n) = some (n : Int) := by
  unfold pyInt
  rw [pyStrip_of_no_space _ (fun c hc => isAsciiDigit_not_space c (natToStr_digits n c hc))]
  rcases hcons : natToStr n with _ | ⟨c, rest⟩
  · exact absurd hcons (natToStr_ne_nil n)
  · have hdigits := natToStr_digits n
    rw [hcons] at hdigits
    have hc : isAsciiDigit c = true := hdigits c (by simp)
    have hparse := pyParseDigits_natToStr n
    rw [hcons] at hparse
    have hm := isAsciiDigit_ne_minus c hc
    have hp := isAsciiDigit_ne_plus c hc
    split
    · rename_i heq; rw [List.cons.injEq] at heq; exact absurd heq.1 hm
    · rename_i heq; rw [List.cons.injEq] at heq; exact absurd heq.1 hp
    · rw [hparse]; rfl

theorem pyInt_intToStr (i : Int) : pyInt (intToStr i) = some i := by
  unfold intToStr
  split
  · rename_i hneg
    unfold pyInt
    have hnos : ∀ c ∈ '-' :: natToStr i.natAbs, isPySpace c = false := by
      intro c hc
      rw [List.mem_cons] at hc
      rcases hc with hc | hc
      · subst hc; decide
      · exact isAsciiDigit_not_space c (natToStr_digits _ c hc)
    rw [pyStrip_of_no_space _ hnos]
    show (pyParseDigits (natToStr i.natAbs)).map (fun n => -(n : Int)) = some i
    rw [pyParseDigits_natToStr]
    show some (-((i.natAbs : Nat) : Int)) = some i
    exact congrArg some (by omega)
  · rename_i hpos
    unfold pyInt
    rw [pyStrip_of_no_space _
      (fun c hc => isAsciiDigit_not_space c (natToStr_digits _ c hc))]
    rcases hcons : natToStr i.natAbs with _ | ⟨c, rest⟩
    · exact absurd hcons (natToStr_ne_nil _)
    · have hdigits := natToStr_digits i.natAbs
      rw [hcons] at hdigits
      have hc : isAsciiDigit c = true := hdigits c (by simp)
      have hparse := pyParseDigits_natToStr i.natAbs
      rw [hcons] at hparse
      split
      · rename_i heq
        rw [List.cons.injEq] at heq
        exact absurd heq.1 (isAsciiDigit_ne_minus c hc)
      · rename_i heq
        rw [List.cons.injEq] at heq
        exact absurd heq.1 (isAsciiDigit_ne_plus c hc)
      · rw [hparse]
        show some ((i.natAbs : Nat) : Int) = some i
        exact congrArg some (by omega)

/-! ## Helper lemmas: splitting and zero padding (parse/format round trip) -/

theorem splitOnChar_ne_nil (sep : Char) (s : List Char) : splitOnChar sep s ≠ [] := by
  cases s with
  | nil => simp [splitOnChar]
  | cons c rest =>
    simp only [splitOnChar]
    rcases h : splitOnChar sep rest with _ | ⟨g, gs⟩
    · simp
    · by_cases hcs : c = sep
      · simp [hcs]
      · simp [hcs]

theorem splitOnChar_no_sep (sep : Char) (s : List Char) (h : ∀ c ∈ s, c ≠ sep) :
    splitOnChar sep s = [s] := by
  induction s with
  | nil => rfl
  | cons c rest ih =>
    simp only [splitOnChar]
    rw [ih (fun d hd => h d (by simp [hd]))]
    simp [h c (by simp)]

theorem splitOnChar_append_sep (sep : Char) (a b : List Char) (h : ∀ c ∈ a, c ≠ sep) :
    splitOnChar sep (a ++ sep :: b) = a :: splitOnChar sep b := by
  induction a with
  | nil =>
    rw [List.nil_append]
    simp only [splitOnChar]
    rcases hb : splitOnChar sep b with _ | ⟨g, gs⟩
    · exact absurd hb (splitOnChar_ne_nil sep b)
    · simp
  | cons c a2 ih =>
    have hrest := ih (fun d hd => h d (by simp [hd]))
    rw [List.cons_append]
    simp only [splitOnChar]
    rw [hrest]
    simp [h c (by simp)]

theorem isAsciiDigit_ne_dot (c : Char) (h : isAsciiDigit c = true) : c ≠ '.' := by
  intro hEq
  subst hEq
  simp [isAsciiDigit] at h

theorem digitsValue_all_zero (l : List Char) (h : ∀ c ∈ l, c = '0') :
    ∀ acc, l.foldl (fun a c => a * 10 + digitVal c) acc = acc * 10 ^ l.length := by
  induction l with
  | nil => intro acc; simp
  | cons c rest ih =>
    intro acc
    have hc : c = '0' := h c (by simp)
    subst hc
    simp only [List.foldl_cons, List.length_cons]
    rw [ih (fun d hd => h d (by simp [hd]))]
    have : digitVal '0' = 0 := by decide
    rw [this]
    ring

theorem digitsValue_replicate_zero_append (k : Nat) (l : List Char) :
    (List.replicate k '0' ++ l).foldl (fun a c => a * 10 + digitVal c) 0 =
      l.foldl (fun a c => a * 10 + digitVal c) 0 := by
  induction k with
  | zero => rfl
  | succ k2 ih =>
    rw [List.replicate_succ, List.cons_append, List.foldl_cons]
    have : digitVal '0' = 0 := by decide
    rw [this]
    simpa using ih

theorem pyInt_digit_list (l : List Char) (hne : l ≠ [])
    (hd : ∀ c ∈ l, isAsciiDigit c = true) :
    pyInt l = some ((l.foldl (fun a c => a * 10 + digitVal c) 0 : Nat) : Int) := by
  unfold pyInt
  rw [pyStrip_of_no_space _ (fun c hc => isAsciiDigit_not_space c (hd c hc))]
  rcases hcons : l with _ | ⟨c, rest⟩
  · exact absurd hcons hne
  · subst hcons
    have hc : isAsciiDigit c = true := hd c (by simp)
    split
    · rename_i heq
      rw [List.cons.injEq] at heq
      exact absurd heq.1 (isAsciiDigit_ne_minus c hc)
    · rename_i heq
      rw [List.cons.injEq] at heq
      exact absurd heq.1 (isAsciiDigit_ne_plus c hc)
    · rw [pyParseDigits, if_pos hc,
        pyDigitsCore_all_digits rest (digitVal c) (fun d hdm => hd d (by simp [hdm]))]
      simp

theorem rstripZeros_append_replicate (z : List Char) :
    rstripZeros z ++ List.replicate (z.length - (rstripZeros z).length) '0' = z := by
  have h1 : z.reverse.takeWhile (fun c => c = '0') ++
      z.reverse.dropWhile (fun c => c = '0') = z.reverse :=
    List.takeWhile_append_dropWhile _ _
  have htake : z.reverse.takeWhile (fun c => c = '0') =
      List.replicate (z.reverse.takeWhile (fun c => c = '0')).length '0' := by
    apply List.eq_replicate_of_mem
    intro b hb
    simpa using List.mem_takeWhile_imp hb
  have hz : z = rstripZeros z ++
      List.replicate (z.reverse.takeWhile (fun c => c = '0')).length '0' := by
    have h2 := congrArg List.reverse h1
    rw [List.reverse_append] at h2
    conv_lhs => rw [show z = z.reverse.reverse from (List.reverse_reverse z).symm, ← h2]
    congr 1
    conv_lhs => rw [htake]
    rw [List.reverse_replicate]
  have hlen : z.length = (rstripZeros z).length +
      (z.reverse.takeWhile (fun c => c = '0')).length := by
    conv_lhs => rw [hz]
    simp
  rw [show z.length - (rstripZeros z).length
      = (z.reverse.takeWhile (fun c => c = '0')).length by omega]
  exact hz.symm

theorem rstripZeros_sublist_mem (z : List Char) (c : Char) (hc : c ∈ rstripZeros z) :
    c ∈ z := by
  unfold rstripZeros at hc
  rw [List.mem_reverse] at hc
  have := (List.dropWhile_sublist (l := z.reverse) (p := fun d => d = '0')).mem hc
  simpa using this

theorem rstripZeros_length_le (z : List Char) : (rstripZeros z).length ≤ z.length := by
  unfold rstripZeros
  calc (z.reverse.dropWhile (fun c => c = '0')).reverse.length
      = (z.reverse.dropWhile (fun c => c = '0')).length := by simp
    _ ≤ z.reverse.length := (List.dropWhile_sublist _).length_le
    _ = z.length := by simp

theorem rstripZeros_eq_nil_imp (z : List Char) (h : rstripZeros z = []) :
    ∀ c ∈ z, c = '0' := by
  have hnil : z.reverse.dropWhile (fun c => c = '0') = [] := by
    have h2 := congrArg List.reverse h
    simpa [rstripZeros] using h2
  have hsplit : z.reverse.takeWhile (fun c => c = '0') ++
      z.reverse.dropWhile (fun c => c = '0') = z.reverse :=
    List.takeWhile_append_dropWhile _ _
  rw [hnil, List.append_nil] at hsplit
  intro c hc
  have hcrev : c ∈ z.reverse.takeWhile (fun c => c = '0') := by
    rw [hsplit]
    exact List.mem_reverse.mpr hc
  simpa using List.mem_takeWhile_imp hcrev

theorem natToStr_length_le (m : Nat) :
    ∀ k : Nat, 0 < m → m < 10 ^ k → (natToStr m).length ≤ k := by
  induction m using Nat.strong_induction_on with
  | _ m ih =>
    intro k hm h
    have hk : 1 ≤ k := by
      by_contra hk0
      have hkz : k = 0 := by omega
      subst hkz
      simp at h
      omega
    unfold natToStr
    rw [natToDigitsRev_eq]
    by_cases hlt : m < 10
    · rw [if_pos hlt]
      simpa using hk
    · rw [if_neg hlt]
      have hdiv : m / 10 < 10 ^ (k - 1) := by
        rw [Nat.div_lt_iff_lt_mul (by omega)]
        calc m < 10 ^ k := h
          _ ≤ 10 ^ (k - 1) * 10 := by
            rw [← pow_succ]
            apply Nat.pow_le_pow_right (by omega)
            omega
      have hdivpos : 0 < m / 10 := Nat.div_pos (by omega) (by omega)
      have hdivlt : m / 10 < m := Nat.div_lt_self (by omega) (by omega)
      have hrec := ih (m / 10) hdivlt (k - 1) hdivpos hdiv
      unfold natToStr at hrec
      simp only [List.reverse_cons, List.length_append, List.length_reverse,
        List.length_cons, List.length_nil] at hrec ⊢
      omega

theorem intToStr_natCast (m : Nat) : intToStr ((m : Nat) : Int) = natToStr m := by
  unfold intToStr
  rw [if_neg (by omega)]
  simp

theorem parse_amount_no_dot (a : List Char) (d : Nat) (hne : a ≠ [])
    (ha : ∀ c ∈ a, isAsciiDigit c = true) :
    parse_amount a d =
      .ok (((a.foldl (fun x c => x * 10 + digitVal c) 0 : Nat) : Int) * (10 : Int) ^ d) := by
  unfold parse_amount
  rw [pyStrip_of_no_space _ (fun c hc => isAsciiDigit_not_space c (ha c hc))]
  dsimp only
  rw [splitOnChar_no_sep _ _ (fun c hc => isAsciiDigit_ne_dot c (ha c hc))]
  simp only [show (([a] : List (List Char)).headD []) = a from rfl,
    show (([a] : List (List Char)).getD 1 []) = ([] : List Char) from rfl,
    show ([a] : List (List Char)).length = 1 from rfl]
  rw [if_neg (show ¬ (2 : Nat) < 1 by omega)]
  rw [pyInt_digit_list a hne ha]
  dsimp only
  rw [if_neg (show ¬ ((1 : Nat) = 2 ∧ ([] : List Char) ≠ []) by simp)]

theorem parse_amount_with_dot (a b : List Char) (d : Nat) (hane : a ≠ []) (hbne : b ≠ [])
    (ha : ∀ c ∈ a, isAsciiDigit c = true) (hb : ∀ c ∈ b, isAsciiDigit c = true)
    (hlen : b.length ≤ d) :
    parse_amount (a ++ '.' :: b) d =
      .ok (((a.foldl (fun x c => x * 10 + digitVal c) 0 : Nat) : Int) * (10 : Int) ^ d +
        (((b ++ List.replicate (d - b.length) '0').foldl
            (fun x c => x * 10 + digitVal c) 0 : Nat) : Int)) := by
  have hnos : ∀ c ∈ a ++ '.' :: b, isPySpace c = false := by
    intro c hc
    rw [List.mem_append, List.mem_cons] at hc
    rcases hc with hc | hc | hc
    · exact isAsciiDigit_not_space c (ha c hc)
    · subst hc; decide
    · exact isAsciiDigit_not_space c (hb c hc)
  have hbdigits : ∀ c ∈ b ++ List.replicate (d - b.length) '0', isAsciiDigit c = true := by
    intro c hc
    rw [List.mem_append] at hc
    rcases hc with hc | hc
    · exact hb c hc
    · rw [List.eq_of_mem_replicate hc]; decide
  unfold parse_amount
  rw [pyStrip_of_no_space _ hnos]
  dsimp only
  rw [splitOnChar_append_sep _ _ _ (fun c hc => isAsciiDigit_ne_dot c (ha c hc))]
  rw [splitOnChar_no_sep _ _ (fun c hc => isAsciiDigit_ne_dot c (hb c hc))]
  simp only [show (([a, b] : List (List Char)).headD []) = a from rfl,
    show (([a, b] : List (List Char)).getD 1 []) = b from rfl,
    show ([a, b] : List (List Char)).length = 2 from rfl]
  rw [if_neg (show ¬ (2 : Nat) < 2 by omega)]
  rw [pyInt_digit_list a hane ha]
  dsimp only
  rw [if_pos (show True ∧ b ≠ [] from ⟨trivial, hbne⟩)]
  rw [if_neg (show ¬ d < b.length by omega)]
  rw [pyInt_digit_list _ (by simp [hbne]) hbdigits]

/-- C10: `parse_amount` applied to `format_amount` of a non-negative
atomic amount recovers the amount exactly, for every decimals count. -/
theorem c10_parse_format_roundtrip (n d : Nat) :
    parse_amount (format_amount (n : Int) d) d = .ok ((n : Int)) := by
  by_cases hz : n = 0
  · subst hz
    have h0 : format_amount ((0 : Nat) : Int) d = ['0'] := by
      simp [format_amount]
    rw [h0]
    rw [parse_amount_no_dot ['0'] d (by simp) (by decide)]
    norm_num
    rfl
  · have h10 : 0 < 10 ^ d := Nat.pos_pow_of_pos d (by omega)
    have hq : Int.ediv ((n : Nat) : Int) ((10 ^ d : Nat) : Int) = ((n / 10 ^ d : Nat) : Int) := rfl
    have hr : Int.emod ((n : Nat) : Int) ((10 ^ d : Nat) : Int) = ((n % 10 ^ d : Nat) : Int) := rfl
    have hdivisor : ((10 : Int) ^ d) = ((10 ^ d : Nat) : Int) := by push_cast; ring
    have hfmt0 : format_amount (n : Int) d =
        (if ((n % 10 ^ d : Nat) : Int) = 0 then intToStr ((n / 10 ^ d : Nat) : Int)
         else intToStr ((n / 10 ^ d : Nat) : Int) ++ '.' ::
           rstripZeros (zfillLeft d (natToStr ((n % 10 ^ d : Nat) : Int).natAbs))) := by
      unfold format_amount
      rw [if_neg (by exact_mod_cast hz)]
      rw [hdivisor]
      dsimp only
      rw [hq, hr]
    by_cases hr0 : n % 10 ^ d = 0
    · rw [hfmt0, if_pos (by exact_mod_cast hr0), intToStr_natCast]
      rw [parse_amount_no_dot _ d (natToStr_ne_nil _) (natToStr_digits _)]
      have hfold := natToStr_foldl (n / 10 ^ d) 0
      simp only [Nat.zero_mul, Nat.zero_add] at hfold
      rw [hfold]
      congr 1
      have hmul : n / 10 ^ d * 10 ^ d = n := Nat.div_mul_cancel (Nat.dvd_of_mod_eq_zero hr0)
      calc ((n / 10 ^ d : Nat) : Int) * (10 : Int) ^ d
          = ((n / 10 ^ d * 10 ^ d : Nat) : Int) := by push_cast; ring
        _ = ((n : Nat) : Int) := by rw [hmul]
    · have hrpos : 0 < n % 10 ^ d := by omega
      have hrlt : n % 10 ^ d < 10 ^ d := Nat.mod_lt n h10
      have hd1 : 1 ≤ d := by
        by_contra hd0
        have : d = 0 := by omega
        subst this
        simp at hrlt
        omega
      have hlenr : (natToStr (n % 10 ^ d)).length ≤ d :=
        natToStr_length_le _ d hrpos hrlt
      have hzlen : (zfillLeft d (natToStr (n % 10 ^ d))).length = d := by
        unfold zfillLeft
        simp
        omega
      have hzdigits : ∀ c ∈ zfillLeft d (natToStr (n % 10 ^ d)), isAsciiDigit c = true := by
        intro c hc
        unfold zfillLeft at hc
        rw [List.mem_append] at hc
        rcases hc with hc | hc
        · rw [List.eq_of_mem_replicate hc]; decide
        · exact natToStr_digits _ c hc
      have hzval : (zfillLeft d (natToStr (n % 10 ^ d))).foldl
          (fun x c => x * 10 + digitVal c) 0 = n % 10 ^ d := by
        unfold zfillLeft
        rw [digitsValue_replicate_zero_append]
        have hfold := natToStr_foldl (n % 10 ^ d) 0
        simpa using hfold
      set ds := rstripZeros (zfillLeft d (natToStr (n % 10 ^ d))) with hds
      have hds_ne : ds ≠ [] := by
        intro hnil
        have hall := rstripZeros_eq_nil_imp _ hnil
        have := digitsValue_all_zero _ hall 0
        rw [this] at hzval
        simp at hzval
        omega
      have hds_digits : ∀ c ∈ ds, isAsciiDigit c = true := by
        intro c hc
        exact hzdigits c (rstripZeros_sublist_mem _ c hc)
      have hds_len : ds.length ≤ d := by
        have hle := rstripZeros_length_le (zfillLeft d (natToStr (n % 10 ^ d)))
        rw [← hds] at hle
        omega
      have hrestore : ds ++ List.replicate (d - ds.length) '0' =
          zfillLeft d (natToStr (n % 10 ^ d)) := by
        have := rstripZeros_append_replicate (zfillLeft d (natToStr (n % 10 ^ d)))
        rw [hzlen] at this
        exact this
      rw [hfmt0, if_neg (by exact_mod_cast hr0)]
      rw [show ((n % 10 ^ d : Nat) : Int).natAbs = n % 10 ^ d by omega]
      rw [intToStr_natCast]
      rw [parse_amount_with_dot _ _ d (natToStr_ne_nil _) hds_ne
        (natToStr_digits _) hds_digits hds_len]
      rw [hrestore]
      rw [hzval]
      have hfoldq := natToStr_foldl (n / 10 ^ d) 0
      simp only [Nat.zero_mul, Nat.zero_add] at hfoldq
      rw [hfoldq]
      have hnm : 10 ^ d * (n / 10 ^ d) + n % 10 ^ d = n := Nat.div_add_mod n (10 ^ d)
      congr 1
      calc ((n / 10 ^ d : Nat) : Int) * (10 : Int) ^ d + ((n % 10 ^ d : Nat) : Int)
          = ((10 ^ d * (n / 10 ^ d) + n % 10 ^ d : Nat) : Int) := by push_cast; ring
        _ = ((n : Nat) : Int) := by rw [hnm]

/-! ## C5 — registry exact-match precedence -/

/-- C5: when, for the same protocol version and scheme name, the registry
holds both an exact registration for a network and a wildcard registration
whose pattern matches that network, `SchemeRegistry.get` returns the
implementation stored under the exact registration. -/
theorem c5_exact_shadows_wildcard (reg : SchemeRegistry) (network scheme_name : String)
    (version : Option Nat) (vmap : List (String × List (String × SchemeImpl)))
    (schemes : List (String × SchemeImpl)) (x y : SchemeImpl) (pat : String)
    (hv : alGet (effVersion version reg.defaultVersion) reg.schemes = some vmap)
    (hnet : alGet network vmap = some schemes)
    (hx : alGet scheme_name schemes = some x)
    (hpat : pat ∈ (alGet (effVersion version reg.defaultVersion) reg.patterns).getD [])
    (hmatch : _matches_network_pattern pat network = true)
    (hy : alGet scheme_name ((alGet pat vmap).getD []) = some y) :
    reg.get network scheme_name version = some x := by
  unfold SchemeRegistry.get
  dsimp only
  rw [hv]
  dsimp only
  rw [hnet]
  dsimp only
  rw [hx]

/-- Witness for C5: a registry holding `exact` under both the wildcard
`eip155:*` (instance 2) and the exact network `eip155:8453` (instance 1);
lookup returns the exact instance. -/
theorem c5_witness :
    (((SchemeRegistry.init 2).register "eip155:*" ⟨"exact", 2⟩ none).register
        "eip155:8453" ⟨"exact", 1⟩ none).get "eip155:8453" "exact" none =
      some ⟨"exact", 1⟩ :=
  c5_exact_shadows_wildcard _ "eip155:8453" "exact" none _ _ ⟨"exact", 1⟩ ⟨"exact", 2⟩
    "eip155:*" rfl rfl rfl (by decide) (by decide) rfl

/-! ## C2 — SVM self-dealing rejection -/

theorem ne_of_head_ne (s t : String) (h : s.data.head? ≠ t.data.head?) : s ≠ t :=
  fun hh => h (congrArg (fun u => u.data.head?) hh)

theorem tsf_ne_self_dealing (e : String) :
    ("transaction_simulation_failed: " ++ e) ≠
      "invalid_exact_svm_payload_transaction_fee_payer_transferring_funds" := by
  apply ne_of_head_ne
  rw [show ("transaction_simulation_failed: " ++ e).data.head? = some 't' from rfl]
  decide

/-- C2: a payload whose parsed TransferChecked authority is one of the
facilitator signer's managed addresses is never verified as valid, and the
reason `invalid_exact_svm_payload_transaction_fee_payer_transferring_funds`
is returned exactly by this failure class (no other code path produces
it). -/
theorem c2_self_dealing_rejected :
    (∀ (signer : FacilitatorSvmSigner) (p : PaymentPayload) (r : PaymentRequirements)
        (tx : SvmTx) (t : TransferDetails),
        p.body.transaction = some tx →
        parse_transfer_checked_instruction tx = some t →
        t.authority ∈ signer.addresses →
        ∀ res, (ExactSvmFacilitatorScheme.verify signer p r).1 = .ok res →
          res.isValid = false) ∧
    (∀ (signer : FacilitatorSvmSigner) (p : PaymentPayload) (r : PaymentRequirements)
        (res : VerifyResult),
        (ExactSvmFacilitatorScheme.verify signer p r).1 = .ok res →
        res.invalidReason =
          some "invalid_exact_svm_payload_transaction_fee_payer_transferring_funds" →
        ∃ tx t, p.body.transaction = some tx ∧
          parse_transfer_checked_instruction tx = some t ∧
          t.authority ∈ signer.addresses) := by
  constructor
  · intro signer p r tx t htx hparse hmem res hres
    unfold ExactSvmFacilitatorScheme.verify at hres
    dsimp only at hres
    rw [htx] at hres
    repeat' split at hres
    all_goals
      first
      | exact Except.noConfusion hres
      | (obtain rfl := Except.ok.inj hres; rfl)
      | simp_all
  · intro signer p r res hres hreason
    unfold ExactSvmFacilitatorScheme.verify at hres
    dsimp only at hres
    repeat' split at hres
    all_goals
      first
      | exact Except.noConfusion hres
      | (obtain rfl := Except.ok.inj hres
         first
         | exact ⟨_, _, by assumption, by assumption, by assumption⟩
         | exact absurd (Option.some.inj hreason) (tsf_ne_self_dealing _)
         | simp at hreason)

/-- Witness for C2: the self-dealing theorem applied to a concrete signer
managing `AuthC2` and a payload whose transfer authority is `AuthC2`. -/
theorem c2_witness :
    c2wPayload.body.transaction = some (.decoded c2wMsg) ∧
    parse_transfer_checked_instruction (.decoded c2wMsg) =
      some ⟨"SrcC2", "MintC2", "DestC2", "AuthC2", 1000000, 6⟩ ∧
    "AuthC2" ∈ c2wSigner.addresses ∧
    (ExactSvmFacilitatorScheme.verify c2wSigner c2wPayload c2wReqs).1 =
      .ok ⟨false,
        some "invalid_exact_svm_payload_transaction_fee_payer_transferring_funds",
        "DestC2"⟩ ∧
    (⟨false,
        some "invalid_exact_svm_payload_transaction_fee_payer_transferring_funds",
        "DestC2"⟩ : VerifyResult).isValid = false :=
  ⟨rfl, rfl, by decide, rfl,
   c2_self_dealing_rejected.1 c2wSigner c2wPayload c2wReqs (.decoded c2wMsg)
     ⟨"SrcC2", "MintC2", "DestC2", "AuthC2", 1000000, 6⟩ rfl rfl (by decide)
     ⟨false, some "invalid_exact_svm_payload_transaction_fee_payer_transferring_funds",
      "DestC2"⟩ rfl⟩

/-! ## C3 — fee-payer containment (corrected) -/

/-- Counterexample for C3 as stated: a payload whose transaction fee payer
(first account key, `MalloryC3`) is not facilitator-managed is still
verified as valid — `verify` never inspects the transaction's own fee
payer, only `requirements.extra.feePayer`. -/
theorem c3_counterexample :
    (ExactSvmFacilitatorScheme.verify c3Signer c3Payload c3Reqs).1 =
      .ok ⟨true, none, "DestC3"⟩ ∧
    get_transaction_fee_payer c3Tx = some "MalloryC3" ∧
    "MalloryC3" ∉ c3Signer.addresses :=
  ⟨rfl, rfl, by decide⟩

/-- C3 (amended): `verify` returns isValid=true only if the requirements'
declared `extra.feePayer` is a nonempty address among the signer's managed
addresses; the transaction's own fee-payer account is not examined. -/
theorem c3_fee_payer_check (signer : FacilitatorSvmSigner) (p : PaymentPayload)
    (r : PaymentRequirements) (res : VerifyResult)
    (hres : (ExactSvmFacilitatorScheme.verify signer p r).1 = .ok res)
    (hvalid : res.isValid = true) :
    ∃ fp, r.extra.bind (fun e => e.feePayer) = some fp ∧ fp ≠ "" ∧
      fp ∈ signer.addresses := by
  unfold ExactSvmFacilitatorScheme.verify at hres
  dsimp only at hres
  repeat' split at hres
  all_goals
    first
    | exact Except.noConfusion hres
    | (obtain rfl := Except.ok.inj hres
       rcases hfp : r.extra.bind (fun e => e.feePayer) with _ | fp
       · simp_all [pyFalsyStr]
       · simp_all [pyFalsyStr])

/-- Witness for C3: the amended theorem applied at the `c3Signer` /
`c3Payload` instance, where verification succeeds. -/
theorem c3_witness :
    (ExactSvmFacilitatorScheme.verify c3Signer c3Payload c3Reqs).1 =
      .ok ⟨true, none, "DestC3"⟩ ∧
    (⟨true, none, "DestC3"⟩ : VerifyResult).isValid = true ∧
    ∃ fp, c3Reqs.extra.bind (fun e => e.feePayer) = some fp ∧ fp ≠ "" ∧
      fp ∈ c3Signer.addresses :=
  ⟨rfl, rfl,
   c3_fee_payer_check c3Signer c3Payload c3Reqs ⟨true, none, "DestC3"⟩ rfl rfl⟩

/-! ## C4 — settle implies verify -/

theorem verify_no_send (signer : FacilitatorSvmSigner) (p : PaymentPayload)
    (r : PaymentRequirements) :
    SignerEvent.send ∉ (ExactSvmFacilitatorScheme.verify signer p r).2 := by
  unfold ExactSvmFacilitatorScheme.verify
  dsimp only
  repeat' split
  all_goals simp

/-- C4: whenever `verify` returns a result with isValid=false, `settle`
returns success=false carrying that verification's invalidReason as its
errorReason, and the signer's `send_transaction` capability is never
invoked. -/
theorem c4_settle_implies_verify (signer : FacilitatorSvmSigner) (p : PaymentPayload)
    (r : PaymentRequirements) (vres : VerifyResult)
    (hv : (ExactSvmFacilitatorScheme.verify signer p r).1 = .ok vres)
    (hinvalid : vres.isValid = false) :
    ∃ sres, (ExactSvmFacilitatorScheme.settle signer p r).1 = .ok sres ∧
      sres.success = false ∧
      sres.errorReason = some (vres.invalidReason.getD "verification_failed") ∧
      SignerEvent.send ∉ (ExactSvmFacilitatorScheme.settle signer p r).2 := by
  unfold ExactSvmFacilitatorScheme.settle
  dsimp only
  rcases htx : p.body.transaction with _ | tx
  · have hv2 : (ExactSvmFacilitatorScheme.verify signer p r).1 =
        .ok ⟨false, some "invalid_payload_structure", ""⟩ := by
      unfold ExactSvmFacilitatorScheme.verify
      rw [htx]
    rw [hv2] at hv
    obtain rfl := Except.ok.inj hv
    exact ⟨_, rfl, rfl, rfl, by simp⟩
  · dsimp only
    rcases hvp : ExactSvmFacilitatorScheme.verify signer p r with ⟨vfst, vev⟩
    have hfst : vfst = .ok vres := by rw [hvp] at hv; exact hv
    subst hfst
    dsimp only
    rw [if_pos (show (!vres.isValid) = true by simp [hinvalid])]
    have hnosend : SignerEvent.send ∉ vev := by
      have hns := verify_no_send signer p r
      rw [hvp] at hns
      exact hns
    exact ⟨_, rfl, rfl, rfl, hnosend⟩

/-- Witness for C4: an underpaying payload fails `verify`, and `settle` on
it returns success=false with the same reason, never reaching a send. -/
theorem c4_witness :
    (ExactSvmFacilitatorScheme.verify c4wSigner c4wPayload c4wReqs).1 =
      .ok ⟨false, some "invalid_exact_svm_payload_amount_insufficient", "DestC4"⟩ ∧
    (⟨false, some "invalid_exact_svm_payload_amount_insufficient", "DestC4"⟩ :
      VerifyResult).isValid = false ∧
    ∃ sres, (ExactSvmFacilitatorScheme.settle c4wSigner c4wPayload c4wReqs).1 =
        .ok sres ∧
      sres.success = false ∧
      sres.errorReason = some ((some "invalid_exact_svm_payload_amount_insufficient").getD
        "verification_failed") ∧
      SignerEvent.send ∉ (ExactSvmFacilitatorScheme.settle c4wSigner c4wPayload c4wReqs).2 :=
  ⟨rfl, rfl,
   c4_settle_implies_verify c4wSigner c4wPayload c4wReqs
     ⟨false, some "invalid_exact_svm_payload_amount_insufficient", "DestC4"⟩ rfl rfl⟩

/-! ## C1 — exact-scheme amount floor -/

theorem ins_ne_tsf (e : String) :
    ("transaction_simulation_failed: " ++ e) ≠
      "invalid_exact_svm_payload_amount_insufficient" := by
  apply ne_of_head_ne
  rw [show ("transaction_simulation_failed: " ++ e).data.head? = some 't' from rfl]
  decide

set_option maxHeartbeats 1000000 in
/-- C1: `verify` rejects any payload whose TransferChecked amount is
strictly below the requirements' required amount (the `maxAmountRequired`
field, the V1 name of the requirements' amount), and an amount greater
than or equal to it never produces the amount-insufficiency failure. -/
theorem c1_amount_floor (signer : FacilitatorSvmSigner) (p : PaymentPayload)
    (r : PaymentRequirements) (tx : SvmTx) (t : TransferDetails) (R : Int)
    (htx : p.body.transaction = some tx)
    (hparse : parse_transfer_checked_instruction tx = some t)
    (hR : pyInt (r.maxAmountRequired.getD "0").toList = some R) :
    ((t.amount : Int) < R →
      ∃ res, (ExactSvmFacilitatorScheme.verify signer p r).1 = .ok res ∧
        res.isValid = false) ∧
    (∀ res, (ExactSvmFacilitatorScheme.verify signer p r).1 = .ok res →
      res.invalidReason = some "invalid_exact_svm_payload_amount_insufficient" →
      (t.amount : Int) < R) := by
  constructor
  · intro hlt
    unfold ExactSvmFacilitatorScheme.verify
    dsimp only
    rw [htx]
    repeat' split
    all_goals
      first
      | exact ⟨_, rfl, rfl⟩
      | (simp_all <;> omega)
  · intro res hres hreason
    unfold ExactSvmFacilitatorScheme.verify at hres
    dsimp only at hres
    rw [htx] at hres
    repeat' split at hres
    all_goals
      first
      | exact Except.noConfusion hres
      | (obtain rfl := Except.ok.inj hres
         first
         | exact absurd (Option.some.inj hreason) (ins_ne_tsf _)
         | simp_all)

set_option maxHeartbeats 1000000 in
/-- Witness for C1: a transfer of 999999 units against a requirement of
1000000 is rejected as invalid. -/
theorem c1_witness :
    c1wPayload.body.transaction = some (.decoded c1wMsg) ∧
    parse_transfer_checked_instruction (.decoded c1wMsg) =
      some ⟨"SrcC1", "MintC1", "DestC1", "AuthC1", 999999, 6⟩ ∧
    pyInt (c1wReqs.maxAmountRequired.getD "0").toList = some 1000000 ∧
    ((999999 : Nat) : Int) < 1000000 ∧
    ∃ res, (ExactSvmFacilitatorScheme.verify c1wSigner c1wPayload c1wReqs).1 =
      .ok res ∧ res.isValid = false :=
  ⟨rfl, rfl, by decide, by decide,
   (c1_amount_floor c1wSigner c1wPayload c1wReqs (.decoded c1wMsg)
     ⟨"SrcC1", "MintC1", "DestC1", "AuthC1", 999999, 6⟩ 1000000 rfl rfl
     (by decide)).1 (by decide)⟩

/-! ## C9 — PaymentRequirementsV2 amount validation (corrected) -/

/-- Counterexample for C9 as stated: the validator accepts "-1", which
does not denote a non-negative integer — `int(v)` succeeds on negative
literals and the validator checks nothing further. -/
theorem c9_counterexample :
    PaymentRequirementsV2.validate_amount "-1" = .ok "-1" ∧
    pyInt "-1".toList = some (-1) ∧ (-1 : Int) < 0 :=
  ⟨rfl, by decide, by decide⟩

/-- C9 (amended): a PaymentRequirementsV2 amount string is accepted
exactly when Python `int()` parses it — an integer, possibly negative
(or carrying sign, surrounding whitespace, or digit-group underscores);
in particular every integer's plain decimal encoding is accepted.
Non-negativity is not enforced. -/
theorem c9_amount_integer_validated :
    (∀ v : String,
      PaymentRequirementsV2.validate_amount v = .ok v ↔ (pyInt v.toList).isSome) ∧
    (∀ i : Int,
      PaymentRequirementsV2.validate_amount (intToStrS i) = .ok (intToStrS i)) := by
  constructor
  · intro v
    unfold PaymentRequirementsV2.validate_amount
    cases h : pyInt v.toList <;> simp
  · intro i
    unfold PaymentRequirementsV2.validate_amount
    rw [show (intToStrS i).toList = intToStr i from rfl, pyInt_intToStr]

/-- Witness for C9: the amended theorem applied at the decimal encoding of
123 and at the string "123". -/
theorem c9_witness :
    PaymentRequirementsV2.validate_amount (intToStrS 123) = .ok (intToStrS 123) ∧
    intToStrS 123 = "123" ∧
    PaymentRequirementsV2.validate_amount "123" = .ok "123" :=
  ⟨c9_amount_integer_validated.2 123, by decide,
   (c9_amount_integer_validated.1 "123").mpr (by decide)⟩

/-! ## C8 — parse_price dollar handling (corrected) -/

/-- Counterexample for C8 as stated: the SVM server scheme does not strip
a leading dollar sign; `parse_price("$0.10")` raises (int("$0") fails
inside parse_amount) instead of returning "100000". -/
theorem c8_counterexample :
    ExactSvmServerScheme.parse_price "$0.10" SOLANA_MAINNET =
      .error "ValueError: invalid literal for int" := rfl

/-- C8 (amended): the EVM, TON and TRON server schemes strip the optional
dollar sign and, with their 6-decimal default stable assets, parse
"$0.10" to atomic "100000" and "$1.00" to "1000000"; the SVM server
scheme alone does not strip "$" (raising on "$0.10") and instead accepts
the bare decimal "0.10" as "100000" and atomic strings unchanged. -/
theorem c8_parse_price_normalization :
    (ExactEvmServerScheme.parse_price "$0.10" "eip155:8453").map (fun a => a.amount) =
      .ok "100000" ∧
    (ExactEvmServerScheme.parse_price "$1.00" "eip155:8453").map (fun a => a.amount) =
      .ok "1000000" ∧
    (ExactTonServerScheme.parse_price "$0.10" "ton:mainnet").map (fun a => a.amount) =
      .ok "100000" ∧
    (ExactTonServerScheme.parse_price "$1.00" "ton:mainnet").map (fun a => a.amount) =
      .ok "1000000" ∧
    (ExactTronServerScheme.parse_price "$0.10" "tron:mainnet").map (fun a => a.amount) =
      .ok "100000" ∧
    (ExactTronServerScheme.parse_price "$1.00" "tron:mainnet").map (fun a => a.amount) =
      .ok "1000000" ∧
    ExactSvmServerScheme.parse_price "$0.10" SOLANA_MAINNET =
      .error "ValueError: invalid literal for int" ∧
    (ExactSvmServerScheme.parse_price "0.10" SOLANA_MAINNET).map (fun a => a.amount) =
      .ok "100000" ∧
    (ExactSvmServerScheme.parse_price "100000" SOLANA_MAINNET).map (fun a => a.amount) =
      .ok "100000" :=
  ⟨rfl, rfl, rfl, rfl, rfl, rfl, rfl, rfl, rfl⟩

/-! ## C6 — wildcard network-pattern matching (corrected) -/

theorem alGet_alSet_self {κ α : Type} [DecidableEq κ] (k : κ) (v : α) :
    ∀ l : List (κ × α), alGet k (alSet k v l) = some v := by
  intro l
  induction l with
  | nil => simp [alSet, alGet]
  | cons hd t ih =>
    obtain ⟨k2, v2⟩ := hd
    by_cases hk : k2 = k
    · subst hk
      simp [alSet, alGet]
    · simp [alSet, alGet, hk, ih]

theorem alGet_two_nil {α : Type} (v : Nat) (x y : α)
    (h : alGet v [(1, x), (2, x)] = some y) : y = x := by
  simp only [alGet] at h
  split at h
  · exact (Option.some.inj h).symm
  · split at h
    · exact (Option.some.inj h).symm
    · exact Option.noConfusion h

theorem matchTail_iff (s : List Char) :
    matchSegsAfterStar [[]] s = true ↔
      (noNewline s = true ∨ ∃ u, s = u ++ ['\n'] ∧ noNewline u = true) := by
  simp only [matchSegsAfterStar, List.length_nil, List.drop_zero, List.isPrefixOf,
    Bool.and_true, List.any_eq_true, List.mem_range, Bool.and_eq_true,
    Bool.or_eq_true, decide_eq_true_eq]
  constructor
  · rintro ⟨k, hk, hnn, hd⟩
    rcases hd with hd | hd
    · left
      have h2 := List.take_append_drop k s
      rw [hd, List.append_nil] at h2
      rw [← h2]
      exact hnn
    · right
      exact ⟨List.take k s, by rw [← hd]; exact (List.take_append_drop k s).symm, hnn⟩
  · rintro (hnn | ⟨u, rfl, hu⟩)
    · refine ⟨s.length, by omega, ?_, Or.inl (List.drop_length s)⟩
      rw [List.take_length]
      exact hnn
    · refine ⟨u.length, by simp; omega, ?_, Or.inr (List.drop_left u ['\n'])⟩
      rw [List.take_left]
      exact hu

theorem eip155_match_iff (n : String) :
    _matches_network_pattern "eip155:*" n = true ↔
      ∃ s, n.toList = "eip155:".toList ++ s ∧
        (noNewline s = true ∨ ∃ u, s = u ++ ['\n'] ∧ noNewline u = true) := by
  have hunf : _matches_network_pattern "eip155:*" n =
      (List.isPrefixOf "eip155:".toList n.toList &&
        matchSegsAfterStar [[]] (n.toList.drop 7)) := rfl
  rw [hunf, Bool.and_eq_true, matchTail_iff]
  constructor
  · rintro ⟨hpre, htl⟩
    rw [List.isPrefixOf_iff_prefix] at hpre
    obtain ⟨s, hs⟩ := hpre
    have hdrop : n.toList.drop 7 = s := by
      rw [← hs]
      exact List.drop_left "eip155:".toList s
    exact ⟨s, hs.symm, by rw [← hdrop]; exact htl⟩
  · rintro ⟨s, hs, htl⟩
    have hdrop : n.toList.drop 7 = s := by
      rw [hs]
      exact List.drop_left "eip155:".toList s
    refine ⟨?_, ?_⟩
    · rw [List.isPrefixOf_iff_prefix, hs]
      exact List.prefix_append _ _
    · rw [hdrop]
      exact htl

/-- Counterexample for C6 as stated: the network "eip155:8453\nx" begins
with "eip155:" yet the wildcard pattern "eip155:*" does not match it —
`.` in the compiled regex does not cross the interior newline and `$`
only accepts the end of the string or a final newline. -/
theorem c6_counterexample :
    List.isPrefixOf "eip155:".toList "eip155:8453\nx".toList = true ∧
    _matches_network_pattern "eip155:*" "eip155:8453\nx" = false := by
  decide

set_option maxHeartbeats 1000000 in
/-- C6 (amended): the pattern "*" matches every network; the wildcard
pattern "eip155:*" matches a network exactly when it is "eip155:"
followed by a suffix that is newline-free or newline-free up to one
final newline (so a network beginning with "eip155:" but containing an
interior newline is not matched); a pattern without a wildcard matches
only the identical string; and after registering a scheme only under
"eip155:*", lookup returns none for every network not beginning with
"eip155:". -/
theorem c6_wildcard_matching (p n scheme_name : String) (impl : SchemeImpl)
    (version : Option Nat)
    (hstar : p.toList.contains '*' = false)
    (hnp : List.isPrefixOf "eip155:".toList n.toList = false) :
    _matches_network_pattern "*" n = true ∧
    (_matches_network_pattern "eip155:*" n = true ↔
      ∃ s, n.toList = "eip155:".toList ++ s ∧
        (noNewline s = true ∨ ∃ u, s = u ++ ['\n'] ∧ noNewline u = true)) ∧
    (_matches_network_pattern p n = true ↔ p = n) ∧
    ((SchemeRegistry.init 2).register "eip155:*" impl version).get n scheme_name
      version = none := by
  have hne : n ≠ "eip155:*" := by
    intro hn
    subst hn
    exact absurd hnp (by decide)
  have hne2 : ¬ (("eip155:*" : String) = n) := fun h => hne h.symm
  have hmatchF : _matches_network_pattern "eip155:*" n = false := by
    cases hb : _matches_network_pattern "eip155:*" n with
    | false => rfl
    | true =>
      obtain ⟨s, hs, -⟩ := (eip155_match_iff n).mp hb
      have hpre : List.isPrefixOf "eip155:".toList n.toList = true := by
        rw [List.isPrefixOf_iff_prefix, hs]
        exact List.prefix_append _ _
      rw [hpre] at hnp
      exact Bool.noConfusion hnp
  refine ⟨rfl, eip155_match_iff n, ?_, ?_⟩
  · unfold _matches_network_pattern
    have hnstar : p ≠ "*" := by
      intro hp
      subst hp
      exact absurd hstar (by decide)
    rw [if_neg hnstar, if_neg (show ¬ (p.toList.contains '*' = true) from
      fun h => by rw [hstar] at h; exact Bool.noConfusion h), decide_eq_true_eq]
  · unfold SchemeRegistry.get SchemeRegistry.register SchemeRegistry.init
    dsimp only
    rcases hA : alGet (effVersion version 2)
        ([(1, []), (2, [])] : List (Nat × List (String × List (String × SchemeImpl))))
        with _ | l <;>
      rcases hB : alGet (effVersion version 2)
          ([(1, []), (2, [])] : List (Nat × List String)) with _ | l2 <;>
      [skip;
       (have hl2 : l2 = [] := alGet_two_nil _ _ _ hB
        subst hl2);
       (have hl : l = [] := alGet_two_nil _ _ _ hA
        subst hl);
       (have hl : l = [] := alGet_two_nil _ _ _ hA
        have hl2 : l2 = [] := alGet_two_nil _ _ _ hB
        subst hl
        subst hl2)] <;>
      simp only [Option.isNone_none, Option.isNone_some, if_true, if_false,
        Bool.false_eq_true, ite_true, ite_false, reduceIte, alGet_alSet_self,
        Option.getD_some, hA, hB] <;>
      simp [alGet, alSet, hne2, hmatchF, List.findSome?]

/-- Witness for C6: after registering an `exact` scheme only under
"eip155:*", lookup for "solana:mainnet" returns none. -/
theorem c6_witness :
    ((SchemeRegistry.init 2).register "eip155:*" ⟨"exact", 1⟩ none).get
      "solana:mainnet" "exact" none = none :=
  (c6_wildcard_matching "solana:mainnet" "solana:mainnet" "exact" ⟨"exact", 1⟩ none
    (by decide) (by decide)).2.2.2

/-! ## C7 — header round trip: character and byte-level lemmas -/

theorem char_toNat_lt (c : Char) : c.toNat < 1114112 := by
  have h := c.valid
  have he : c.toNat = c.val.toNat := rfl
  rcases h with h | ⟨h1, h2⟩ <;> omega

theorem char_not_surrogate (c : Char) : ¬ (55296 ≤ c.toNat ∧ c.toNat ≤ 57343) := by
  have h := c.valid
  have he : c.toNat = c.val.toNat := rfl
  rcases h with h | ⟨h1, h2⟩ <;> omega

theorem hexVal_hexDigit : ∀ d < 16, hexVal (hexDigit d) = some d := by decide

theorem parseHex4_toHex4 (n : Nat) (h : n < 65536) (r : List Char) :
    parseHex4 (toHex4 n ++ r) = some (n, r) := by
  unfold toHex4
  simp only [List.cons_append, List.nil_append, parseHex4,
    hexVal_hexDigit (n / 4096 % 16) (by omega), hexVal_hexDigit (n / 256 % 16) (by omega),
    hexVal_hexDigit (n / 16 % 16) (by omega), hexVal_hexDigit (n % 16) (by omega)]
  congr 2
  omega

theorem b64CharVal_b64Char : ∀ v < 64, b64CharVal (b64Char v) = some v := by decide

theorem b64CharVal_isSome (v : Nat) (h : v < 64) : (b64CharVal (b64Char v)).isSome = true := by
  rw [b64CharVal_b64Char v h]
  rfl


theorem utf8DecodeOne_encodeChar (c : Char) (t : List Nat) :
    utf8DecodeOne (utf8EncodeChar c ++ t) = some (c, t) := by
  have hlt := char_toNat_lt c
  have hsur := char_not_surrogate c
  have hofn : Char.ofNat c.toNat = c := Char.ofNat_toNat c
  unfold utf8EncodeChar
  by_cases h1 : c.toNat < 128
  · rw [if_pos h1]
    simp only [List.cons_append, List.nil_append]
    unfold utf8DecodeOne
    dsimp only
    rw [if_pos h1, hofn]
  · rw [if_neg h1]
    by_cases h2 : c.toNat < 2048
    · rw [if_pos h2]
      simp only [List.cons_append, List.nil_append]
      unfold utf8DecodeOne
      dsimp only
      rw [if_neg (show ¬ (192 + c.toNat / 64 < 128) by omega),
        if_neg (show ¬ (192 + c.toNat / 64 < 192) by omega),
        if_pos (show 192 + c.toNat / 64 < 224 by omega)]
      rw [if_pos (show 128 ≤ 128 + c.toNat % 64 ∧ 128 + c.toNat % 64 < 192 by omega)]
      have hn : (192 + c.toNat / 64 - 192) * 64 + (128 + c.toNat % 64 - 128) = c.toNat := by
        omega
      rw [hn, if_pos (show 128 ≤ c.toNat by omega), hofn]
    · rw [if_neg h2]
      by_cases h3 : c.toNat < 65536
      · rw [if_pos h3]
        simp only [List.cons_append, List.nil_append]
        unfold utf8DecodeOne
        dsimp only
        rw [if_neg (show ¬ (224 + c.toNat / 4096 < 128) by omega),
          if_neg (show ¬ (224 + c.toNat / 4096 < 192) by omega),
          if_neg (show ¬ (224 + c.toNat / 4096 < 224) by omega),
          if_pos (show 224 + c.toNat / 4096 < 240 by omega)]
        rw [if_pos (show (128 ≤ 128 + c.toNat / 64 % 64 ∧ 128 + c.toNat / 64 % 64 < 192) ∧
            128 ≤ 128 + c.toNat % 64 ∧ 128 + c.toNat % 64 < 192 by omega)]
        have hn : (224 + c.toNat / 4096 - 224) * 4096 + (128 + c.toNat / 64 % 64 - 128) * 64 +
            (128 + c.toNat % 64 - 128) = c.toNat := by omega
        rw [hn, if_pos (show 2048 ≤ c.toNat ∧ ¬(55296 ≤ c.toNat ∧ c.toNat ≤ 57343) from
          ⟨by omega, hsur⟩), hofn]
      · rw [if_neg h3]
        simp only [List.cons_append, List.nil_append]
        unfold utf8DecodeOne
        dsimp only
        rw [if_neg (show ¬ (240 + c.toNat / 262144 < 128) by omega),
          if_neg (show ¬ (240 + c.toNat / 262144 < 192) by omega),
          if_neg (show ¬ (240 + c.toNat / 262144 < 224) by omega),
          if_neg (show ¬ (240 + c.toNat / 262144 < 240) by omega),
          if_pos (show 240 + c.toNat / 262144 < 248 by omega)]
        rw [if_pos (show (128 ≤ 128 + c.toNat / 4096 % 64 ∧ 128 + c.toNat / 4096 % 64 < 192) ∧
            (128 ≤ 128 + c.toNat / 64 % 64 ∧ 128 + c.toNat / 64 % 64 < 192) ∧
            128 ≤ 128 + c.toNat % 64 ∧ 128 + c.toNat % 64 < 192 by omega)]
        have hn : (240 + c.toNat / 262144 - 240) * 262144 +
            (128 + c.toNat / 4096 % 64 - 128) * 4096 +
            (128 + c.toNat / 64 % 64 - 128) * 64 + (128 + c.toNat % 64 - 128) = c.toNat := by
          omega
        rw [hn, if_pos (show 65536 ≤ c.toNat ∧ c.toNat ≤ 1114111 by omega), hofn]

theorem utf8EncodeChar_ne_nil (c : Char) : utf8EncodeChar c ≠ [] := by
  unfold utf8EncodeChar
  by_cases h1 : c.toNat < 128
  · rw [if_pos h1]; simp
  · rw [if_neg h1]
    by_cases h2 : c.toNat < 2048
    · rw [if_pos h2]; simp
    · rw [if_neg h2]
      by_cases h3 : c.toNat < 65536
      · rw [if_pos h3]; simp
      · rw [if_neg h3]; simp

theorem utf8DecodeLoop_encode (s : List Char) : ∀ f : Nat,
    (utf8Encode s).length ≤ f → utf8DecodeLoop f (utf8Encode s) = some s := by
  induction s with
  | nil => intro f _; cases f <;> rfl
  | cons c t ih =>
    intro f hf
    rw [show utf8Encode (c :: t) = utf8EncodeChar c ++ utf8Encode t from rfl] at hf ⊢
    rcases hb : utf8EncodeChar c with _ | ⟨b, bs⟩
    · exact absurd hb (utf8EncodeChar_ne_nil c)
    have hlen : 1 + (utf8Encode t).length ≤ f := by
      have := congrArg List.length hb
      simp only [List.length_cons] at this
      rw [List.length_append] at hf
      omega
    obtain ⟨g, rfl⟩ : ∃ g, f = g + 1 := ⟨f - 1, by omega⟩
    simp only [List.cons_append]
    rw [utf8DecodeLoop]
    have hone : utf8DecodeOne (b :: (bs ++ utf8Encode t)) = some (c, utf8Encode t) := by
      rw [← List.cons_append, ← hb, utf8DecodeOne_encodeChar]
    rw [hone]
    dsimp only
    rw [ih g (by omega)]
    rfl

theorem utf8_roundtrip (s : List Char) : utf8Decode (utf8Encode s) = some s :=
  utf8DecodeLoop_encode s (utf8Encode s).length le_rfl

theorem utf8EncodeChar_lt_256 (c : Char) : ∀ b ∈ utf8EncodeChar c, b < 256 := by
  intro b hb
  have hlt := char_toNat_lt c
  unfold utf8EncodeChar at hb
  by_cases h1 : c.toNat < 128
  · rw [if_pos h1] at hb
    simp only [List.mem_cons, List.not_mem_nil, or_false] at hb
    omega
  · rw [if_neg h1] at hb
    by_cases h2 : c.toNat < 2048
    · rw [if_pos h2] at hb
      simp only [List.mem_cons, List.not_mem_nil, or_false] at hb
      rcases hb with rfl | rfl <;> omega
    · rw [if_neg h2] at hb
      by_cases h3 : c.toNat < 65536
      · rw [if_pos h3] at hb
        simp only [List.mem_cons, List.not_mem_nil, or_false] at hb
        rcases hb with rfl | rfl | rfl <;> omega
      · rw [if_neg h3] at hb
        simp only [List.mem_cons, List.not_mem_nil, or_false] at hb
        rcases hb with rfl | rfl | rfl | rfl <;> omega

theorem utf8Encode_lt_256 (s : List Char) : ∀ b ∈ utf8Encode s, b < 256 := by
  induction s with
  | nil => intro b hb; exact absurd hb (List.not_mem_nil b)
  | cons c t ih =>
    intro b hb
    rw [show utf8Encode (c :: t) = utf8EncodeChar c ++ utf8Encode t from rfl,
      List.mem_append] at hb
    rcases hb with hb | hb
    · exact utf8EncodeChar_lt_256 c b hb
    · exact ih b hb

theorem utf8Encode_ne_nil (c : Char) (t : List Char) : utf8Encode (c :: t) ≠ [] := by
  rw [show utf8Encode (c :: t) = utf8EncodeChar c ++ utf8Encode t from rfl]
  intro h
  rcases List.append_eq_nil.mp h with ⟨h1, -⟩
  exact utf8EncodeChar_ne_nil c h1

theorem b64Char_ne_eq : ∀ v < 64, b64Char v ≠ '=' := by decide

theorem b64decodeCore_encode (bs : List Nat) (h : ∀ b ∈ bs, b < 256) :
    b64decodeCore (b64encode bs) = some bs := by
  induction bs using b64encode.induct with
  | case1 => rfl
  | case2 a =>
    have ha : a < 256 := h a (by simp)
    rw [show b64encode [a] = [b64Char (a / 4), b64Char (a % 4 * 16), '=', '='] from rfl,
      b64decodeCore, b64CharVal_b64Char (a / 4) (by omega),
      b64CharVal_b64Char (a % 4 * 16) (by omega)]
    dsimp only
    rw [if_pos rfl, if_pos ⟨rfl, rfl⟩]
    congr 2
    omega
  | case3 a b =>
    have ha : a < 256 := h a (by simp)
    have hb : b < 256 := h b (by simp)
    rw [show b64encode [a, b] =
        [b64Char (a / 4), b64Char (a % 4 * 16 + b / 16), b64Char (b % 16 * 4), '='] from rfl,
      b64decodeCore, b64CharVal_b64Char (a / 4) (by omega),
      b64CharVal_b64Char (a % 4 * 16 + b / 16) (by omega)]
    dsimp only
    rw [if_neg (b64Char_ne_eq (b % 16 * 4) (by omega)),
      b64CharVal_b64Char (b % 16 * 4) (by omega)]
    dsimp only
    rw [if_pos rfl, if_pos rfl]
    congr 1
    have h1 : a / 4 * 4 + (a % 4 * 16 + b / 16) / 16 = a := by omega
    have h2 : (a % 4 * 16 + b / 16) % 16 * 16 + b % 16 * 4 / 4 = b := by omega
    rw [h1, h2]
  | case4 a b c rest ih =>
    have ha : a < 256 := h a (by simp)
    have hb : b < 256 := h b (by simp)
    have hc : c < 256 := h c (by simp)
    have hrest : ∀ x ∈ rest, x < 256 := fun x hx => h x (by simp [hx])
    rw [show b64encode (a :: b :: c :: rest) =
        b64Char (a / 4) :: b64Char (a % 4 * 16 + b / 16) :: b64Char (b % 16 * 4 + c / 64) ::
          b64Char (c % 64) :: b64encode rest from rfl,
      b64decodeCore, b64CharVal_b64Char (a / 4) (by omega),
      b64CharVal_b64Char (a % 4 * 16 + b / 16) (by omega)]
    dsimp only
    rw [if_neg (b64Char_ne_eq (b % 16 * 4 + c / 64) (by omega)),
      b64CharVal_b64Char (b % 16 * 4 + c / 64) (by omega)]
    dsimp only
    rw [if_neg (b64Char_ne_eq (c % 64) (by omega)),
      b64CharVal_b64Char (c % 64) (by omega)]
    dsimp only
    rw [ih hrest]
    simp only [Option.map]
    congr 1
    have h1 : a / 4 * 4 + (a % 4 * 16 + b / 16) / 16 = a := by omega
    have h2 : (a % 4 * 16 + b / 16) % 16 * 16 + (b % 16 * 4 + c / 64) / 4 = b := by omega
    have h3 : (b % 16 * 4 + c / 64) % 4 * 64 + c % 64 = c := by omega
    rw [h1, h2, h3]

theorem b64encode_filter_mem (bs : List Nat) (h : ∀ b ∈ bs, b < 256) :
    ∀ x ∈ b64encode bs, ((b64CharVal x).isSome || decide (x = '=')) = true := by
  induction bs using b64encode.induct with
  | case1 => intro x hx; exact absurd hx (List.not_mem_nil x)
  | case2 a =>
    have ha : a < 256 := h a (by simp)
    intro x hx
    rw [show b64encode [a] = [b64Char (a / 4), b64Char (a % 4 * 16), '=', '='] from rfl] at hx
    simp only [List.mem_cons, List.not_mem_nil, or_false] at hx
    rcases hx with rfl | rfl | rfl | rfl
    · rw [b64CharVal_isSome (a / 4) (by omega)]; rfl
    · rw [b64CharVal_isSome (a % 4 * 16) (by omega)]; rfl
    · decide
    · decide
  | case3 a b =>
    have ha : a < 256 := h a (by simp)
    have hb : b < 256 := h b (by simp)
    intro x hx
    rw [show b64encode [a, b] =
        [b64Char (a / 4), b64Char (a % 4 * 16 + b / 16), b64Char (b % 16 * 4), '='] from
      rfl] at hx
    simp only [List.mem_cons, List.not_mem_nil, or_false] at hx
    rcases hx with rfl | rfl | rfl | rfl
    · rw [b64CharVal_isSome (a / 4) (by omega)]; rfl
    · rw [b64CharVal_isSome (a % 4 * 16 + b / 16) (by omega)]; rfl
    · rw [b64CharVal_isSome (b % 16 * 4) (by omega)]; rfl
    · decide
  | case4 a b c rest ih =>
    have ha : a < 256 := h a (by simp)
    have hb : b < 256 := h b (by simp)
    have hc : c < 256 := h c (by simp)
    have hrest : ∀ x ∈ rest, x < 256 := fun x hx => h x (by simp [hx])
    intro x hx
    rw [show b64encode (a :: b :: c :: rest) =
        b64Char (a / 4) :: b64Char (a % 4 * 16 + b / 16) :: b64Char (b % 16 * 4 + c / 64) ::
          b64Char (c % 64) :: b64encode rest from rfl] at hx
    simp only [List.mem_cons] at hx
    rcases hx with rfl | rfl | rfl | rfl | hx
    · rw [b64CharVal_isSome (a / 4) (by omega)]; rfl
    · rw [b64CharVal_isSome (a % 4 * 16 + b / 16) (by omega)]; rfl
    · rw [b64CharVal_isSome (b % 16 * 4 + c / 64) (by omega)]; rfl
    · rw [b64CharVal_isSome (c % 64) (by omega)]; rfl
    · exact ih hrest x hx

theorem b64decode_encode (bs : List Nat) (h : ∀ b ∈ bs, b < 256) :
    b64decode (b64encode bs) = some bs := by
  unfold b64decode
  rw [List.filter_eq_self.mpr (b64encode_filter_mem bs h)]
  exact b64decodeCore_encode bs h

theorem b64encode_length_mod (bs : List Nat) : (b64encode bs).length % 4 = 0 := by
  induction bs using b64encode.induct with
  | case1 => rfl
  | case2 a =>
    rw [show b64encode [a] = [b64Char (a / 4), b64Char (a % 4 * 16), '=', '='] from rfl]
    simp
  | case3 a b =>
    rw [show b64encode [a, b] =
        [b64Char (a / 4), b64Char (a % 4 * 16 + b / 16), b64Char (b % 16 * 4), '='] from rfl]
    simp
  | case4 a b c rest ih =>
    rw [show b64encode (a :: b :: c :: rest) =
        b64Char (a / 4) :: b64Char (a % 4 * 16 + b / 16) :: b64Char (b % 16 * 4 + c / 64) ::
          b64Char (c % 64) :: b64encode rest from rfl]
    simp only [List.length_cons]
    omega

theorem b64encode_ne_nil (x : Nat) (t : List Nat) : b64encode (x :: t) ≠ [] := by
  match t with
  | [] => simp [b64encode]
  | [b] => simp [b64encode]
  | b :: c :: rest => simp [b64encode]

theorem b64encode_dropWhile (bs : List Nat) (h : ∀ b ∈ bs, b < 256) :
    (b64encode bs).dropWhile (fun c => (b64CharVal c).isSome) = [] ∨
    (b64encode bs).dropWhile (fun c => (b64CharVal c).isSome) = ['='] ∨
    (b64encode bs).dropWhile (fun c => (b64CharVal c).isSome) = ['=', '='] := by
  induction bs using b64encode.induct with
  | case1 => left; rfl
  | case2 a =>
    have ha : a < 256 := h a (by simp)
    right; right
    rw [show b64encode [a] = [b64Char (a / 4), b64Char (a % 4 * 16), '=', '='] from rfl,
      List.dropWhile_cons_of_pos (by rw [b64CharVal_isSome (a / 4) (by omega)]),
      List.dropWhile_cons_of_pos (by rw [b64CharVal_isSome (a % 4 * 16) (by omega)])]
    rfl
  | case3 a b =>
    have ha : a < 256 := h a (by simp)
    have hb : b < 256 := h b (by simp)
    right; left
    rw [show b64encode [a, b] =
        [b64Char (a / 4), b64Char (a % 4 * 16 + b / 16), b64Char (b % 16 * 4), '='] from rfl,
      List.dropWhile_cons_of_pos (by rw [b64CharVal_isSome (a / 4) (by omega)]),
      List.dropWhile_cons_of_pos (by rw [b64CharVal_isSome (a % 4 * 16 + b / 16) (by omega)]),
      List.dropWhile_cons_of_pos (by rw [b64CharVal_isSome (b % 16 * 4) (by omega)])]
    rfl
  | case4 a b c rest ih =>
    have ha : a < 256 := h a (by simp)
    have hb : b < 256 := h b (by simp)
    have hc : c < 256 := h c (by simp)
    have hrest : ∀ x ∈ rest, x < 256 := fun x hx => h x (by simp [hx])
    rw [show b64encode (a :: b :: c :: rest) =
        b64Char (a / 4) :: b64Char (a % 4 * 16 + b / 16) :: b64Char (b % 16 * 4 + c / 64) ::
          b64Char (c % 64) :: b64encode rest from rfl,
      List.dropWhile_cons_of_pos (by rw [b64CharVal_isSome (a / 4) (by omega)]),
      List.dropWhile_cons_of_pos (by rw [b64CharVal_isSome (a % 4 * 16 + b / 16) (by omega)]),
      List.dropWhile_cons_of_pos
        (by rw [b64CharVal_isSome (b % 16 * 4 + c / 64) (by omega)]),
      List.dropWhile_cons_of_pos (by rw [b64CharVal_isSome (c % 64) (by omega)])]
    exact ih hrest

theorem is_valid_base64_encode (bs : List Nat) (hne : bs ≠ [])
    (h : ∀ b ∈ bs, b < 256) : is_valid_base64 (b64encode bs) = true := by
  unfold is_valid_base64
  have hne2 : b64encode bs ≠ [] := by
    match bs with
    | [] => exact absurd rfl hne
    | x :: t => exact b64encode_ne_nil x t
  rw [if_neg (by simp [List.isEmpty_iff, hne2]),
    if_neg (by simp [b64encode_length_mod bs])]
  unfold BASE64_REGEX_match
  have hcore : ((b64encode bs).dropWhile (fun c => (b64CharVal c).isSome) = [] ∨
      (b64encode bs).dropWhile (fun c => (b64CharVal c).isSome) = ['='] ∨
      (b64encode bs).dropWhile (fun c => (b64CharVal c).isSome) = ['=', '=']) :=
    b64encode_dropWhile bs h
  dsimp only
  rcases hcore with hc | hc | hc <;> rw [hc] <;> rfl

theorem parseStringBody_escString (s : List Char) : ∀ (rest : List Char) (fuel : Nat),
    s.length < fuel →
    parseStringBody fuel (escString s ++ '"' :: rest) = some (s, rest) := by
  induction s with
  | nil =>
    intro rest fuel hf
    obtain ⟨g, rfl⟩ : ∃ g, fuel = g + 1 := ⟨fuel - 1, by omega⟩
    rw [show escString [] ++ '"' :: rest = '"' :: rest from rfl, parseStringBody, if_pos rfl]
  | cons c t ih =>
    intro rest fuel hf
    obtain ⟨g, rfl⟩ : ∃ g, fuel = g + 1 := ⟨fuel - 1, by omega⟩
    have hg : t.length < g := by
      simp only [List.length_cons] at hf
      omega
    have hofn : Char.ofNat c.toNat = c := Char.ofNat_toNat c
    have hsur := char_not_surrogate c
    have hlt := char_toNat_lt c
    rw [show escString (c :: t) = escChar c ++ escString t from rfl]
    unfold escChar
    by_cases h1 : c = '"'
    · subst h1
      rw [if_pos rfl]
      simp only [List.cons_append, List.nil_append, List.append_assoc]
      rw [parseStringBody, if_neg (by decide), if_pos rfl]
      unfold parseEscape
      dsimp only
      rw [if_pos rfl, ih rest g hg]
      rfl
    · rw [if_neg h1]
      by_cases h2 : c = '\\'
      · subst h2
        rw [if_pos rfl]
        simp only [List.cons_append, List.nil_append, List.append_assoc]
        rw [parseStringBody, if_neg (by decide), if_pos rfl]
        unfold parseEscape
        dsimp only
        rw [if_neg (by decide), if_pos rfl, ih rest g hg]
        rfl
      · rw [if_neg h2]
        by_cases h3 : c = '\n'
        · subst h3
          rw [if_pos rfl]
          simp only [List.cons_append, List.nil_append, List.append_assoc]
          rw [parseStringBody, if_neg (by decide), if_pos rfl]
          unfold parseEscape
          dsimp only
          rw [if_neg (by decide), if_neg (by decide), if_neg (by decide),
            if_neg (by decide), if_neg (by decide), if_pos rfl, ih rest g hg]
          rfl
        · rw [if_neg h3]
          by_cases h4 : c = '\t'
          · subst h4
            rw [if_pos rfl]
            simp only [List.cons_append, List.nil_append, List.append_assoc]
            rw [parseStringBody, if_neg (by decide), if_pos rfl]
            unfold parseEscape
            dsimp only
            rw [if_neg (by decide), if_neg (by decide), if_neg (by decide),
              if_neg (by decide), if_neg (by decide), if_neg (by decide),
              if_neg (by decide), if_pos rfl, ih rest g hg]
            rfl
          · rw [if_neg h4]
            by_cases h5 : c = '\r'
            · subst h5
              rw [if_pos rfl]
              simp only [List.cons_append, List.nil_append, List.append_assoc]
              rw [parseStringBody, if_neg (by decide), if_pos rfl]
              unfold parseEscape
              dsimp only
              rw [if_neg (by decide), if_neg (by decide), if_neg (by decide),
                if_neg (by decide), if_neg (by decide), if_neg (by decide),
                if_pos rfl, ih rest g hg]
              rfl
            · rw [if_neg h5]
              by_cases h6 : c = '\x08'
              · subst h6
                rw [if_pos rfl]
                simp only [List.cons_append, List.nil_append, List.append_assoc]
                rw [parseStringBody, if_neg (by decide), if_pos rfl]
                unfold parseEscape
                dsimp only
                rw [if_neg (by decide), if_neg (by decide), if_neg (by decide),
                  if_pos rfl, ih rest g hg]
                rfl
              · rw [if_neg h6]
                by_cases h7 : c = '\x0c'
                · subst h7
                  rw [if_pos rfl]
                  simp only [List.cons_append, List.nil_append, List.append_assoc]
                  rw [parseStringBody, if_neg (by decide), if_pos rfl]
                  unfold parseEscape
                  dsimp only
                  rw [if_neg (by decide), if_neg (by decide), if_neg (by decide),
                    if_neg (by decide), if_pos rfl, ih rest g hg]
                  rfl
                · rw [if_neg h7]
                  by_cases h8 : c.toNat < 32
                  · rw [if_pos h8]
                    simp only [List.cons_append, List.nil_append, List.append_assoc]
                    rw [parseStringBody, if_neg (by decide), if_pos rfl]
                    unfold parseEscape
                    dsimp only
                    rw [if_neg (by decide), if_neg (by decide), if_neg (by decide),
                      if_neg (by decide), if_neg (by decide), if_neg (by decide),
                      if_neg (by decide), if_neg (by decide), if_pos rfl,
                      parseHex4_toHex4 c.toNat (by omega)]
                    dsimp only
                    rw [if_neg (show ¬ (55296 ≤ c.toNat ∧ c.toNat ≤ 56319) by omega),
                      if_neg (show ¬ (56320 ≤ c.toNat ∧ c.toNat ≤ 57343) by omega),
                      ih rest g hg]
                    simp only [Option.map]
                    rw [hofn]
                  · rw [if_neg h8]
                    by_cases h9 : c.toNat < 127
                    · rw [if_pos h9]
                      simp only [List.cons_append, List.nil_append]
                      rw [parseStringBody, if_neg h1, if_neg h2, if_neg h8, ih rest g hg]
                      rfl
                    · rw [if_neg h9]
                      by_cases h10 : c.toNat < 65536
                      · rw [if_pos h10]
                        simp only [List.cons_append, List.nil_append, List.append_assoc]
                        rw [parseStringBody, if_neg (by decide), if_pos rfl]
                        unfold parseEscape
                        dsimp only
                        rw [if_neg (by decide), if_neg (by decide), if_neg (by decide),
                          if_neg (by decide), if_neg (by decide), if_neg (by decide),
                          if_neg (by decide), if_neg (by decide), if_pos rfl,
                          parseHex4_toHex4 c.toNat (by omega)]
                        dsimp only
                        rw [if_neg (show ¬ (55296 ≤ c.toNat ∧ c.toNat ≤ 56319) by omega),
                          if_neg (show ¬ (56320 ≤ c.toNat ∧ c.toNat ≤ 57343) by omega),
                          ih rest g hg]
                        simp only [Option.map]
                        rw [hofn]
                      · rw [if_neg h10]
                        simp only [List.cons_append, List.nil_append, List.append_assoc]
                        rw [parseStringBody, if_neg (by decide), if_pos rfl]
                        unfold parseEscape
                        dsimp only
                        rw [if_neg (by decide), if_neg (by decide), if_neg (by decide),
                          if_neg (by decide), if_neg (by decide), if_neg (by decide),
                          if_neg (by decide), if_neg (by decide), if_pos rfl,
                          parseHex4_toHex4 (55296 + (c.toNat - 65536) / 1024) (by omega)]
                        dsimp only
                        rw [if_pos (show 55296 ≤ 55296 + (c.toNat - 65536) / 1024 ∧
                            55296 + (c.toNat - 65536) / 1024 ≤ 56319 by omega)]
                        simp only [List.cons_append, List.nil_append, List.append_assoc]
                        simp only [and_self, if_true]
                        rw [parseHex4_toHex4 (56320 + (c.toNat - 65536) % 1024) (by omega)]
                        dsimp only
                        rw [if_pos (show 56320 ≤ 56320 + (c.toNat - 65536) % 1024 ∧
                            56320 + (c.toNat - 65536) % 1024 ≤ 57343 by omega),
                          ih rest g hg]
                        simp only [Option.map]
                        rw [show 65536 + (55296 + (c.toNat - 65536) / 1024 - 55296) * 1024 +
                            (56320 + (c.toNat - 65536) % 1024 - 56320) = c.toNat by omega,
                          hofn]

theorem escChar_ne_nil (c : Char) : escChar c ≠ [] := by
  unfold escChar
  repeat' split
  all_goals simp

theorem escString_length (s : List Char) : s.length ≤ (escString s).length := by
  induction s with
  | nil => simp [escString]
  | cons c t ih =>
    rw [show escString (c :: t) = escChar c ++ escString t from rfl,
      List.length_append, List.length_cons]
    have h1 : 1 ≤ (escChar c).length := by
      rcases h : escChar c with _ | ⟨a, b⟩
      · exact absurd h (escChar_ne_nil c)
      · simp
    omega

theorem digit_not_ws (c : Char) (h : isAsciiDigit c = true) : isJsonWs c = false := by
  by_cases h1 : c = ' '
  · subst h1; exact absurd h (by decide)
  by_cases h2 : c = '\t'
  · subst h2; exact absurd h (by decide)
  by_cases h3 : c = '\n'
  · subst h3; exact absurd h (by decide)
  by_cases h4 : c = '\r'
  · subst h4; exact absurd h (by decide)
  unfold isJsonWs
  simp [h1, h2, h3, h4]

theorem skipWs_cons_of_not_ws (c : Char) (t : List Char) (h : isJsonWs c = false) :
    skipWs (c :: t) = c :: t := by
  unfold skipWs
  rw [List.dropWhile_cons_of_neg]
  simp [h]

theorem parseNatDigits_natToStr (n : Nat) (rest : List Char)
    (hrest : headNotDigit rest = true) :
    parseNatDigits (natToStr n ++ rest) = some (n, rest) := by
  have htail : rest.takeWhile isAsciiDigit = [] := by
    cases rest with
    | nil => rfl
    | cons c t =>
      unfold headNotDigit at hrest
      rw [List.takeWhile_cons_of_neg]
      simp only [Bool.not_eq_true'] at hrest
      simp [hrest]
  unfold parseNatDigits
  rw [List.takeWhile_append_of_pos (natToStr_digits n), htail, List.append_nil]
  rw [if_neg (by simp [List.isEmpty_iff, natToStr_ne_nil n])]
  have hfold := natToStr_foldl n 0
  simp only [Nat.zero_mul, Nat.zero_add] at hfold
  rw [hfold, List.drop_left]

theorem jsonDumps_head (x : Json) : ∃ d ds, jsonDumps x = d :: ds ∧
    (d = 'n' ∨ d = 't' ∨ d = 'f' ∨ d = '-' ∨ isAsciiDigit d = true ∨ d = '"' ∨
      d = '[' ∨ d = '\x7b') := by
  cases x with
  | null => exact ⟨'n', _, rfl, by decide⟩
  | jbool b =>
    cases b with
    | false => exact ⟨'f', _, rfl, by decide⟩
    | true => exact ⟨'t', _, rfl, by decide⟩
  | jnum i =>
    by_cases hi : i < 0
    · refine ⟨'-', natToStr i.natAbs, ?_, by decide⟩
      rw [show jsonDumps (.jnum i) = intToStr i from rfl]
      unfold intToStr
      rw [if_pos hi]
    · rcases hnat : natToStr i.natAbs with _ | ⟨d, ds⟩
      · exact absurd hnat (natToStr_ne_nil _)
      · refine ⟨d, ds, ?_, ?_⟩
        · rw [show jsonDumps (.jnum i) = intToStr i from rfl]
          unfold intToStr
          rw [if_neg hi, hnat]
        · refine Or.inr (Or.inr (Or.inr (Or.inr (Or.inl ?_))))
          exact natToStr_digits _ d (by rw [hnat]; exact List.mem_cons_self _ _)
  | jstr s => exact ⟨'"', _, rfl, by decide⟩
  | jarr xs => exact ⟨'[', _, rfl, by decide⟩
  | jobj kvs => exact ⟨'\x7b', _, rfl, by decide⟩

theorem head_class_not_ws (d : Char)
    (h : d = 'n' ∨ d = 't' ∨ d = 'f' ∨ d = '-' ∨ isAsciiDigit d = true ∨ d = '"' ∨
      d = '[' ∨ d = '\x7b') : isJsonWs d = false := by
  rcases h with rfl | rfl | rfl | rfl | h | rfl | rfl | rfl
  · decide
  · decide
  · decide
  · decide
  · exact digit_not_ws d h
  · decide
  · decide
  · decide

theorem skipWs_dumps_append (x : Json) (tail : List Char) :
    skipWs (jsonDumps x ++ tail) = jsonDumps x ++ tail := by
  obtain ⟨d, ds, hd, hcls⟩ := jsonDumps_head x
  rw [hd, List.cons_append, skipWs_cons_of_not_ws d _ (head_class_not_ws d hcls)]

theorem skipWs_ws_append (ws t : List Char) (hws : ∀ c ∈ ws, isJsonWs c = true)
    (ht : skipWs t = t) : skipWs (ws ++ t) = t := by
  unfold skipWs at ht ⊢
  rw [List.dropWhile_append_of_pos hws, ht]

theorem head_class_ne_rb (d : Char)
    (h : d = 'n' ∨ d = 't' ∨ d = 'f' ∨ d = '-' ∨ isAsciiDigit d = true ∨ d = '"' ∨
      d = '[' ∨ d = '\x7b') : ¬ (d = ']') := by
  intro hd
  subst hd
  rcases h with h | h | h | h | h | h | h | h <;> exact absurd h (by decide)

theorem parseJsonValue_num (i : Int) (ws rest : List Char) (g : Nat)
    (hws : ∀ c ∈ ws, isJsonWs c = true)
    (hrest : headNotDigit rest = true) :
    parseJsonValue (g + 1) (ws ++ (intToStr i ++ rest)) = some (.jnum i, rest) := by
  by_cases hi : i < 0
  · rw [show intToStr i = '-' :: natToStr i.natAbs from by unfold intToStr; rw [if_pos hi],
      List.cons_append, parseJsonValue,
      skipWs_ws_append ws _ hws (skipWs_cons_of_not_ws '-' _ (by decide))]
    split
    · simp_all
    · simp_all
    · simp_all
    · simp_all
    · simp_all
    · simp_all
    · rename_i r heq
      simp only [List.cons.injEq, true_and] at heq
      rw [← heq, parseNatDigits_natToStr i.natAbs rest hrest]
      simp only [Option.map]
      rw [show -((i.natAbs : Nat) : Int) = i by omega]
    · exfalso
      rename_i h1 h2 h3 h4 h5 h6 h7
      exact h7 _ rfl
  · rcases hnat : natToStr i.natAbs with _ | ⟨d, ds⟩
    · exact absurd hnat (natToStr_ne_nil _)
    have hd : isAsciiDigit d = true :=
      natToStr_digits _ d (by rw [hnat]; exact List.mem_cons_self _ _)
    rw [show intToStr i = natToStr i.natAbs from by unfold intToStr; rw [if_neg hi],
      hnat, List.cons_append, parseJsonValue,
      skipWs_ws_append ws _ hws (skipWs_cons_of_not_ws d _ (digit_not_ws d hd))]
    split
    · simp_all
      exact absurd hd (by decide)
    · simp_all
      exact absurd hd (by decide)
    · simp_all
      exact absurd hd (by decide)
    · simp_all
      exact absurd hd (by decide)
    · simp_all
      exact absurd hd (by decide)
    · simp_all
      exact absurd hd (by decide)
    · simp_all
      exact absurd hd (by decide)
    · rw [← List.cons_append, ← hnat, parseNatDigits_natToStr i.natAbs rest hrest]
      simp only [Option.map]
      rw [show ((i.natAbs : Nat) : Int) = i by omega]

theorem objAppend_nil : ∀ o : JsonObj, objAppend o .nil = o
  | .nil => rfl
  | .cons k v tl => by rw [objAppend, objAppend_nil tl]

theorem objAppend_assoc : ∀ a b c : JsonObj,
    objAppend (objAppend a b) c = objAppend a (objAppend b c)
  | .nil, b, c => rfl
  | .cons k v tl, b, c => by
    rw [objAppend, objAppend, objAppend, objAppend_assoc tl b c]

theorem objHasKey_append (k : List Char) : ∀ a b : JsonObj,
    objHasKey k (objAppend a b) = (objHasKey k a || objHasKey k b)
  | .nil, b => rfl
  | .cons k2 v tl, b => by
    rw [objAppend, objHasKey, objHasKey, objHasKey_append k tl b, Bool.or_assoc]

theorem objSet_fresh (k : List Char) (v : Json) : ∀ acc : JsonObj,
    objHasKey k acc = false → objSet k v acc = objAppend acc (.cons k v .nil)
  | .nil, _ => rfl
  | .cons k2 v2 tl, h => by
    rw [objHasKey, Bool.or_eq_false_iff] at h
    rw [objSet, if_neg (by simpa using h.1), objAppend, objSet_fresh k v tl h.2]

theorem objHasKey_eq_contains (k : List Char) : ∀ kvs : JsonObj,
    objHasKey k kvs = (objKeys kvs).contains k
  | .nil => rfl
  | .cons k2 v tl => by
    rw [objHasKey, objKeys, objHasKey_eq_contains k tl, List.contains_cons]
    congr 1
    by_cases hk : k2 = k
    · subst hk
      simp
    · simp [hk, Ne.symm hk]

theorem objFromPairs_objPairs : ∀ (kvs : JsonObj) (acc : JsonObj),
    canonicalObj kvs = true →
    (∀ k, objHasKey k kvs = true → objHasKey k acc = false) →
    objFromPairs acc (objPairs kvs) = objAppend acc kvs
  | .nil, acc, _, _ => by rw [objPairs, objFromPairs, objAppend_nil]
  | .cons k v tl, acc, hc, hdisj => by
    rw [canonicalObj, Bool.and_eq_true, Bool.and_eq_true] at hc
    obtain ⟨⟨hknot, hv⟩, hctl⟩ := hc
    have hfresh : objHasKey k acc = false := by
      refine hdisj k ?_
      rw [objHasKey]
      simp
    have hktl : objHasKey k tl = false := by
      rw [objHasKey_eq_contains]
      simpa using hknot
    rw [objPairs, objFromPairs, objSet_fresh k v acc hfresh,
      objFromPairs_objPairs tl (objAppend acc (.cons k v .nil)) hctl ?_,
      objAppend_assoc]
    · rfl
    · intro k2 hk2
      rw [objHasKey_append, Bool.or_eq_false_iff]
      constructor
      · refine hdisj k2 ?_
        rw [objHasKey, hk2]
        simp
      · rw [objHasKey, objHasKey]
        have : ¬ (k = k2) := by
          intro hkk
          subst hkk
          rw [hk2] at hktl
          exact Bool.noConfusion hktl
        simp [this]

theorem intToStr_ne_nil (i : Int) : intToStr i ≠ [] := by
  unfold intToStr
  by_cases hi : i < 0
  · rw [if_pos hi]
    simp
  · rw [if_neg hi]
    exact natToStr_ne_nil _

theorem jsonDumps_ne_nil (x : Json) : jsonDumps x ≠ [] := by
  obtain ⟨d, ds, hd, -⟩ := jsonDumps_head x
  rw [hd]
  simp

mutual

theorem jsonNeed_le : ∀ x : Json, jsonNeed x ≤ (jsonDumps x).length
  | .null => by decide
  | .jbool true => by decide
  | .jbool false => by decide
  | .jnum i => by
    rw [jsonNeed]
    rcases h : intToStr i with _ | ⟨d, ds⟩
    · exact absurd h (intToStr_ne_nil i)
    · rw [show jsonDumps (.jnum i) = intToStr i from rfl, h]
      simp
  | .jstr s => by
    rw [jsonNeed, show jsonDumps (.jstr s) = '"' :: escString s ++ ['"'] from rfl]
    simp
  | .jarr xs => by
    have h := jsonArrNeed_le xs
    rw [jsonNeed, show jsonDumps (.jarr xs) = '[' :: jsonDumpsArr xs ++ [']'] from rfl]
    simp only [List.length_cons, List.length_append, List.length_cons, List.length_nil]
    omega
  | .jobj kvs => by
    have h := jsonObjNeed_le kvs
    rw [jsonNeed, show jsonDumps (.jobj kvs) = '\x7b' :: jsonDumpsObj kvs ++ ['\x7d'] from rfl]
    simp only [List.length_cons, List.length_append, List.length_cons, List.length_nil]
    omega

theorem jsonArrNeed_le : ∀ xs : JsonArr, jsonArrNeed xs ≤ (jsonDumpsArr xs).length + 1
  | .nil => by decide
  | .cons x .nil => by
    have h := jsonNeed_le x
    have h1 : 1 ≤ (jsonDumps x).length :=
      List.length_pos.mpr (jsonDumps_ne_nil x)
    rw [jsonArrNeed, jsonArrNeed, show jsonDumpsArr (.cons x .nil) = jsonDumps x from rfl]
    omega
  | .cons x (.cons y tl) => by
    have h := jsonNeed_le x
    have h2 := jsonArrNeed_le (.cons y tl)
    rw [jsonArrNeed, show jsonDumpsArr (.cons x (.cons y tl)) =
      jsonDumps x ++ ',' :: ' ' :: jsonDumpsArr (.cons y tl) from rfl]
    simp only [List.length_append, List.length_cons]
    omega

theorem jsonObjNeed_le : ∀ kvs : JsonObj, jsonObjNeed kvs ≤ (jsonDumpsObj kvs).length + 1
  | .nil => by decide
  | .cons k v .nil => by
    have h := jsonNeed_le v
    rw [jsonObjNeed, jsonObjNeed, show jsonDumpsObj (.cons k v .nil) =
      dumpString k ++ ':' :: ' ' :: jsonDumps v from rfl]
    simp only [List.length_append, List.length_cons]
    omega
  | .cons k v (.cons k2 v2 tl) => by
    have h := jsonNeed_le v
    have h2 := jsonObjNeed_le (.cons k2 v2 tl)
    rw [jsonObjNeed, show jsonDumpsObj (.cons k v (.cons k2 v2 tl)) =
      dumpString k ++ ':' :: ' ' :: jsonDumps v ++
        ',' :: ' ' :: jsonDumpsObj (.cons k2 v2 tl) from rfl]
    simp only [List.length_append, List.length_cons]
    omega

end

theorem ws_nil_ok : ∀ c ∈ ([] : List Char), isJsonWs c = true := by
  intro c hcm
  exact absurd hcm (List.not_mem_nil c)

theorem ws_space_ok : ∀ c ∈ [' '], isJsonWs c = true := by
  intro c hcm
  rw [List.mem_singleton] at hcm
  subst hcm
  rfl

mutual

theorem parse_dumps_value : ∀ (x : Json) (ws rest : List Char) (f : Nat),
    canonicalJson x = true → jsonNeed x ≤ f →
    (∀ c ∈ ws, isJsonWs c = true) → headNotDigit rest = true →
    parseJsonValue f (ws ++ (jsonDumps x ++ rest)) = some (x, rest)
  | .null, ws, rest, f, hc, hf, hws, hrest => by
    obtain ⟨g, rfl⟩ : ∃ g, f = g + 1 := ⟨f - 1, by rw [jsonNeed] at hf; omega⟩
    rw [parseJsonValue, skipWs_ws_append ws _ hws (skipWs_dumps_append .null rest)]
    rfl
  | .jbool true, ws, rest, f, hc, hf, hws, hrest => by
    obtain ⟨g, rfl⟩ : ∃ g, f = g + 1 := ⟨f - 1, by rw [jsonNeed] at hf; omega⟩
    rw [parseJsonValue,
      skipWs_ws_append ws _ hws (skipWs_dumps_append (.jbool true) rest)]
    rfl
  | .jbool false, ws, rest, f, hc, hf, hws, hrest => by
    obtain ⟨g, rfl⟩ : ∃ g, f = g + 1 := ⟨f - 1, by rw [jsonNeed] at hf; omega⟩
    rw [parseJsonValue,
      skipWs_ws_append ws _ hws (skipWs_dumps_append (.jbool false) rest)]
    rfl
  | .jnum i, ws, rest, f, hc, hf, hws, hrest => by
    obtain ⟨g, rfl⟩ : ∃ g, f = g + 1 := ⟨f - 1, by rw [jsonNeed] at hf; omega⟩
    exact parseJsonValue_num i ws rest g hws hrest
  | .jstr s, ws, rest, f, hc, hf, hws, hrest => by
    obtain ⟨g, rfl⟩ : ∃ g, f = g + 1 := ⟨f - 1, by rw [jsonNeed] at hf; omega⟩
    rw [parseJsonValue, skipWs_ws_append ws _ hws (skipWs_dumps_append (.jstr s) rest)]
    rw [show jsonDumps (.jstr s) ++ rest = '"' :: (escString s ++ '"' :: rest) from by
      rw [show jsonDumps (.jstr s) = '"' :: (escString s ++ ['"']) from rfl]
      simp [List.append_assoc]]
    show (parseStringBody ((escString s ++ '"' :: rest).length + 1)
        (escString s ++ '"' :: rest)).map (fun p => (Json.jstr p.1, p.2)) =
      some (.jstr s, rest)
    rw [parseStringBody_escString s rest _ (by
      have := escString_length s
      simp only [List.length_append, List.length_cons]
      omega)]
    rfl
  | .jarr .nil, ws, rest, f, hc, hf, hws, hrest => by
    obtain ⟨g, rfl⟩ : ∃ g, f = g + 1 := ⟨f - 1, by rw [jsonNeed] at hf; omega⟩
    rw [parseJsonValue, skipWs_ws_append ws _ hws (skipWs_dumps_append (.jarr .nil) rest)]
    rfl
  | .jarr (.cons y tl), ws, rest, f, hc, hf, hws, hrest => by
    obtain ⟨g, rfl⟩ : ∃ g, f = g + 1 := ⟨f - 1, by rw [jsonNeed] at hf; omega⟩
    have hfg : jsonArrNeed (.cons y tl) ≤ g := by rw [jsonNeed] at hf; omega
    have hca : canonicalArr (.cons y tl) = true := by rw [canonicalJson] at hc; exact hc
    rw [parseJsonValue,
      skipWs_ws_append ws _ hws (skipWs_dumps_append (.jarr (.cons y tl)) rest)]
    rw [show jsonDumps (.jarr (.cons y tl)) ++ rest =
        '[' :: (jsonDumpsArr (.cons y tl) ++ ']' :: rest) from by
      rw [show jsonDumps (.jarr (.cons y tl)) =
        '[' :: (jsonDumpsArr (.cons y tl) ++ [']']) from rfl]
      simp [List.append_assoc]]
    show (match skipWs (jsonDumpsArr (.cons y tl) ++ ']' :: rest) with
        | ']' :: r2 => some (Json.jarr .nil, r2)
        | r1 => (parseJsonArrItems g r1).map (fun p => (Json.jarr p.1, p.2)))
      = some (Json.jarr (.cons y tl), rest)
    obtain ⟨tail, htail⟩ : ∃ tail, jsonDumpsArr (.cons y tl) = jsonDumps y ++ tail :=
      match tl with
      | .nil => ⟨[], by
          rw [show jsonDumpsArr (.cons y .nil) = jsonDumps y from rfl, List.append_nil]⟩
      | .cons z tl2 => ⟨',' :: ' ' :: jsonDumpsArr (.cons z tl2), rfl⟩
    obtain ⟨d, ds, hdy, hcls⟩ := jsonDumps_head y
    rw [show skipWs (jsonDumpsArr (.cons y tl) ++ ']' :: rest) =
        jsonDumpsArr (.cons y tl) ++ ']' :: rest from by
      rw [htail, List.append_assoc]
      exact skipWs_dumps_append y (tail ++ ']' :: rest)]
    rw [htail, List.append_assoc, hdy, List.cons_append]
    split
    · rename_i r2 heq
      rw [List.cons.injEq] at heq
      exact absurd heq.1 (head_class_ne_rb d hcls)
    · rw [← List.cons_append, ← hdy, ← List.append_assoc, ← htail]
      have harr := parse_dumps_arr y tl [] rest g hca hfg ws_nil_ok
      rw [List.nil_append] at harr
      rw [harr]
      rfl
  | .jobj .nil, ws, rest, f, hc, hf, hws, hrest => by
    obtain ⟨g, rfl⟩ : ∃ g, f = g + 1 := ⟨f - 1, by rw [jsonNeed] at hf; omega⟩
    rw [parseJsonValue, skipWs_ws_append ws _ hws (skipWs_dumps_append (.jobj .nil) rest)]
    rfl
  | .jobj (.cons k v tl), ws, rest, f, hc, hf, hws, hrest => by
    obtain ⟨g, rfl⟩ : ∃ g, f = g + 1 := ⟨f - 1, by rw [jsonNeed] at hf; omega⟩
    have hfg : jsonObjNeed (.cons k v tl) ≤ g := by rw [jsonNeed] at hf; omega
    have hco : canonicalObj (.cons k v tl) = true := by rw [canonicalJson] at hc; exact hc
    rw [parseJsonValue,
      skipWs_ws_append ws _ hws (skipWs_dumps_append (.jobj (.cons k v tl)) rest)]
    rw [show jsonDumps (.jobj (.cons k v tl)) ++ rest =
        '\x7b' :: (jsonDumpsObj (.cons k v tl) ++ '\x7d' :: rest) from by
      rw [show jsonDumps (.jobj (.cons k v tl)) =
        '\x7b' :: (jsonDumpsObj (.cons k v tl) ++ ['\x7d']) from rfl]
      simp [List.append_assoc]]
    show (match skipWs (jsonDumpsObj (.cons k v tl) ++ '\x7d' :: rest) with
        | '\x7d' :: r2 => some (Json.jobj .nil, r2)
        | r1 => (parseJsonObjItems g r1).map
            (fun p => (Json.jobj (objFromPairs .nil p.1), p.2)))
      = some (Json.jobj (.cons k v tl), rest)
    obtain ⟨z, hz⟩ : ∃ z, jsonDumpsObj (.cons k v tl) = dumpString k ++ z :=
      match tl with
      | .nil => ⟨':' :: ' ' :: jsonDumps v, rfl⟩
      | .cons k2 v2 tl2 =>
        ⟨(':' :: ' ' :: jsonDumps v) ++ (',' :: ' ' :: jsonDumpsObj (.cons k2 v2 tl2)), by
          rw [show jsonDumpsObj (.cons k v (.cons k2 v2 tl2)) =
            (dumpString k ++ (':' :: ' ' :: jsonDumps v)) ++
              (',' :: ' ' :: jsonDumpsObj (.cons k2 v2 tl2)) from rfl,
            List.append_assoc]⟩
    have hform : jsonDumpsObj (.cons k v tl) ++ '\x7d' :: rest =
        '"' :: ((escString k ++ ['"']) ++ (z ++ '\x7d' :: rest)) := by
      rw [hz, show dumpString k = '"' :: (escString k ++ ['"']) from rfl]
      simp [List.append_assoc]
    rw [hform, skipWs_cons_of_not_ws '"' _ (by decide)]
    split
    · rename_i r2 heq
      rw [List.cons.injEq] at heq
      exact absurd heq.1 (by decide)
    · rw [← hform]
      have hobj := parse_dumps_obj k v tl [] rest g hco hfg ws_nil_ok
      rw [List.nil_append] at hobj
      rw [hobj]
      show some (Json.jobj (objFromPairs .nil (objPairs (.cons k v tl))), rest) =
        some (Json.jobj (.cons k v tl), rest)
      rw [objFromPairs_objPairs (.cons k v tl) .nil hco (fun k2 _ => rfl)]
      rfl
termination_by x ws rest f hc hf hws hrest => sizeOf x
decreasing_by all_goals (simp_wf <;> omega)

theorem parse_dumps_arr : ∀ (y : Json) (tl : JsonArr) (ws rest : List Char) (f : Nat),
    canonicalArr (.cons y tl) = true → jsonArrNeed (.cons y tl) ≤ f →
    (∀ c ∈ ws, isJsonWs c = true) →
    parseJsonArrItems f (ws ++ (jsonDumpsArr (.cons y tl) ++ ']' :: rest)) =
      some (.cons y tl, rest)
  | y, .nil, ws, rest, f, hc, hf, hws => by
    obtain ⟨g, rfl⟩ : ∃ g, f = g + 1 := ⟨f - 1, by rw [jsonArrNeed] at hf; omega⟩
    have hy : canonicalJson y = true := by
      rw [canonicalArr, Bool.and_eq_true] at hc
      exact hc.1
    have hyg : jsonNeed y ≤ g := by rw [jsonArrNeed, jsonArrNeed] at hf; omega
    rw [parseJsonArrItems, show jsonDumpsArr (.cons y .nil) = jsonDumps y from rfl,
      parse_dumps_value y ws (']' :: rest) g hy hyg hws (by rfl)]
    dsimp only
    rw [skipWs_cons_of_not_ws ']' _ (by decide)]
    rfl
  | y, .cons z tl2, ws, rest, f, hc, hf, hws => by
    obtain ⟨g, rfl⟩ : ∃ g, f = g + 1 := ⟨f - 1, by rw [jsonArrNeed] at hf; omega⟩
    have hy : canonicalJson y = true := by
      rw [canonicalArr, Bool.and_eq_true] at hc
      exact hc.1
    have htl : canonicalArr (.cons z tl2) = true := by
      rw [canonicalArr, Bool.and_eq_true] at hc
      exact hc.2
    have hyg : jsonNeed y ≤ g := by rw [jsonArrNeed] at hf; omega
    have htlg : jsonArrNeed (.cons z tl2) ≤ g := by rw [jsonArrNeed] at hf; omega
    rw [parseJsonArrItems]
    rw [show jsonDumpsArr (.cons y (.cons z tl2)) ++ ']' :: rest =
        jsonDumps y ++ (',' :: ' ' :: (jsonDumpsArr (.cons z tl2) ++ ']' :: rest)) from by
      rw [show jsonDumpsArr (.cons y (.cons z tl2)) =
        jsonDumps y ++ ',' :: ' ' :: jsonDumpsArr (.cons z tl2) from rfl]
      simp [List.append_assoc]]
    rw [parse_dumps_value y ws _ g hy hyg hws (by rfl)]
    dsimp only
    rw [skipWs_cons_of_not_ws ',' _ (by decide)]
    split
    · rename_i r2 heq
      rw [List.cons.injEq] at heq
      obtain ⟨-, hr⟩ := heq
      subst hr
      have harr := parse_dumps_arr z tl2 [' '] rest g htl htlg ws_space_ok
      rw [show ([' '] ++ (jsonDumpsArr (.cons z tl2) ++ ']' :: rest)) =
        ' ' :: (jsonDumpsArr (.cons z tl2) ++ ']' :: rest) from rfl] at harr
      rw [harr]
      rfl
    · rename_i r2 heq
      rw [List.cons.injEq] at heq
      exact absurd heq.1 (by decide)
    · exfalso
      rename_i hno1 hno2
      exact hno1 _ rfl
termination_by y tl ws rest f hc hf hws => 1 + sizeOf y + sizeOf tl
decreasing_by all_goals (simp_wf <;> omega)

theorem parse_dumps_obj : ∀ (k : List Char) (v : Json) (tl : JsonObj)
    (ws rest : List Char) (f : Nat),
    canonicalObj (.cons k v tl) = true → jsonObjNeed (.cons k v tl) ≤ f →
    (∀ c ∈ ws, isJsonWs c = true) →
    parseJsonObjItems f (ws ++ (jsonDumpsObj (.cons k v tl) ++ '\x7d' :: rest)) =
      some (objPairs (.cons k v tl), rest)
  | k, v, .nil, ws, rest, f, hc, hf, hws => by
    obtain ⟨g, rfl⟩ : ∃ g, f = g + 1 := ⟨f - 1, by rw [jsonObjNeed] at hf; omega⟩
    have hv : canonicalJson v = true := by
      rw [canonicalObj, Bool.and_eq_true, Bool.and_eq_true] at hc
      exact hc.1.2
    have hvg : jsonNeed v ≤ g := by rw [jsonObjNeed, jsonObjNeed] at hf; omega
    have hform : jsonDumpsObj (.cons k v .nil) ++ '\x7d' :: rest =
        '"' :: (escString k ++ '"' :: (':' :: ' ' :: (jsonDumps v ++ '\x7d' :: rest))) := by
      rw [show jsonDumpsObj (.cons k v .nil) =
        ('"' :: (escString k ++ ['"'])) ++ (':' :: ' ' :: jsonDumps v) from rfl]
      simp [List.append_assoc]
    rw [parseJsonObjItems,
      skipWs_ws_append ws _ hws (by
        rw [hform]
        exact skipWs_cons_of_not_ws '"' _ (by decide)),
      hform]
    split
    · rename_i r heq
      rw [List.cons.injEq] at heq
      obtain ⟨-, hr⟩ := heq
      subst hr
      rw [parseStringBody_escString k _ _ (by
        have := escString_length k
        simp only [List.length_append, List.length_cons]
        omega)]
      dsimp only
      rw [skipWs_cons_of_not_ws ':' _ (by decide)]
      split
      · rename_i r3 heq3
        rw [List.cons.injEq] at heq3
        obtain ⟨-, hr3⟩ := heq3
        subst hr3
        have hval := parse_dumps_value v [' '] ('\x7d' :: rest) g hv hvg ws_space_ok
          (by rfl)
        rw [show ([' '] ++ (jsonDumps v ++ '\x7d' :: rest)) =
          ' ' :: (jsonDumps v ++ '\x7d' :: rest) from rfl] at hval
        rw [hval]
        dsimp only
        rw [skipWs_cons_of_not_ws '\x7d' _ (by decide)]
        split
        · rename_i r5 heq5
          rw [List.cons.injEq] at heq5
          exact absurd heq5.1 (by decide)
        · rename_i r5 heq5
          rw [List.cons.injEq] at heq5
          obtain ⟨-, hr5⟩ := heq5
          subst hr5
          rfl
        · exfalso
          rename_i hno1 hno2
          exact hno2 _ rfl
      · exfalso
        rename_i hno
        exact hno _ rfl
    · exfalso
      rename_i hno
      exact hno _ rfl
  | k, v, .cons k2 v2 tl2, ws, rest, f, hc, hf, hws => by
    obtain ⟨g, rfl⟩ : ∃ g, f = g + 1 := ⟨f - 1, by rw [jsonObjNeed] at hf; omega⟩
    have hv : canonicalJson v = true := by
      rw [canonicalObj, Bool.and_eq_true, Bool.and_eq_true] at hc
      exact hc.1.2
    have htl : canonicalObj (.cons k2 v2 tl2) = true := by
      rw [canonicalObj, Bool.and_eq_true, Bool.and_eq_true] at hc
      exact hc.2
    have hvg : jsonNeed v ≤ g := by rw [jsonObjNeed] at hf; omega
    have htlg : jsonObjNeed (.cons k2 v2 tl2) ≤ g := by rw [jsonObjNeed] at hf; omega
    have hform : jsonDumpsObj (.cons k v (.cons k2 v2 tl2)) ++ '\x7d' :: rest =
        '"' :: (escString k ++ '"' :: (':' :: ' ' :: (jsonDumps v ++ ',' :: ' ' ::
          (jsonDumpsObj (.cons k2 v2 tl2) ++ '\x7d' :: rest)))) := by
      rw [show jsonDumpsObj (.cons k v (.cons k2 v2 tl2)) =
        (dumpString k ++ (':' :: ' ' :: jsonDumps v)) ++
          (',' :: ' ' :: jsonDumpsObj (.cons k2 v2 tl2)) from rfl,
        show dumpString k = '"' :: (escString k ++ ['"']) from rfl]
      simp [List.append_assoc]
    rw [parseJsonObjItems,
      skipWs_ws_append ws _ hws (by
        rw [hform]
        exact skipWs_cons_of_not_ws '"' _ (by decide)),
      hform]
    split
    · rename_i r heq
      rw [List.cons.injEq] at heq
      obtain ⟨-, hr⟩ := heq
      subst hr
      rw [parseStringBody_escString k _ _ (by
        have := escString_length k
        simp only [List.length_append, List.length_cons]
        omega)]
      dsimp only
      rw [skipWs_cons_of_not_ws ':' _ (by decide)]
      split
      · rename_i r3 heq3
        rw [List.cons.injEq] at heq3
        obtain ⟨-, hr3⟩ := heq3
        subst hr3
        have hval := parse_dumps_value v [' ']
          (',' :: ' ' :: (jsonDumpsObj (.cons k2 v2 tl2) ++ '\x7d' :: rest)) g hv hvg
          ws_space_ok (by rfl)
        rw [show ([' '] ++ (jsonDumps v ++ ',' :: ' ' ::
            (jsonDumpsObj (.cons k2 v2 tl2) ++ '\x7d' :: rest))) =
          ' ' :: (jsonDumps v ++ ',' :: ' ' ::
            (jsonDumpsObj (.cons k2 v2 tl2) ++ '\x7d' :: rest)) from rfl] at hval
        rw [hval]
        dsimp only
        rw [skipWs_cons_of_not_ws ',' _ (by decide)]
        split
        · rename_i r5 heq5
          rw [List.cons.injEq] at heq5
          obtain ⟨-, hr5⟩ := heq5
          subst hr5
          have hobj := parse_dumps_obj k2 v2 tl2 [' '] rest g htl htlg ws_space_ok
          rw [show ([' '] ++ (jsonDumpsObj (.cons k2 v2 tl2) ++ '\x7d' :: rest)) =
            ' ' :: (jsonDumpsObj (.cons k2 v2 tl2) ++ '\x7d' :: rest) from rfl] at hobj
          rw [hobj]
          rfl
        · rename_i r5 heq5
          rw [List.cons.injEq] at heq5
          exact absurd heq5.1 (by decide)
        · exfalso
          rename_i hno1 hno2
          exact hno1 _ rfl
      · exfalso
        rename_i hno
        exact hno _ rfl
    · exfalso
      rename_i hno
      exact hno _ rfl
termination_by k v tl ws rest f hc hf hws => 1 + sizeOf v + sizeOf tl
decreasing_by all_goals (simp_wf <;> omega)

end

theorem jsonLoads_jsonDumps (x : Json) (hc : canonicalJson x = true) :
    jsonLoads (jsonDumps x) = some x := by
  unfold jsonLoads
  have hfuel : jsonNeed x ≤ (jsonDumps x).length + 1 :=
    le_trans (jsonNeed_le x) (by omega)
  have h := parse_dumps_value x [] [] ((jsonDumps x).length + 1) hc hfuel ws_nil_ok rfl
  rw [List.nil_append, List.append_nil] at h
  rw [h]
  rfl

theorem header_roundtrip_core (x : Json) (hc : canonicalJson x = true) :
    is_valid_base64 (safe_base64_encode (jsonDumps x)) = true ∧
    safe_base64_decode (safe_base64_encode (jsonDumps x)) = some (jsonDumps x) := by
  have hne : utf8Encode (jsonDumps x) ≠ [] := by
    rcases hdum : jsonDumps x with _ | ⟨c, t⟩
    · exact absurd hdum (jsonDumps_ne_nil x)
    · exact utf8Encode_ne_nil c t
  have hb : ∀ b ∈ utf8Encode (jsonDumps x), b < 256 := utf8Encode_lt_256 _
  constructor
  · exact is_valid_base64_encode _ hne hb
  · unfold safe_base64_decode safe_base64_encode
    rw [b64decode_encode _ hb]
    exact utf8_roundtrip _

theorem dumpDict_objPairs : ∀ kvs : JsonObj,
    dumpDict ((objPairs kvs).map (fun p => (Json.jstr p.1, p.2))) = kvs
  | .nil => rfl
  | .cons k v tl => by
    rw [objPairs, List.map_cons, dumpDict, dumpKey, dumpDict_objPairs tl]

/-- C7: decoding the encoded header value returns the value itself, up
to nothing — key order is preserved exactly.  The payment-signature and
payment-required pairs round-trip every JSON value with the
key-uniqueness invariant of Python dicts; the payment-response encoder
first converts its argument with `dict()`, so its round trip is stated
for mapping input (with no separate requirements argument), where the
conversion is an entry-for-entry copy. -/
theorem c7_header_roundtrip (x : Json) (kvs : JsonObj) (hx : canonicalJson x = true)
    (hkvs : canonicalObj kvs = true) :
    decode_payment_signature_header (encode_payment_signature_header x) = .ok x ∧
    decode_payment_required_header (encode_payment_required_header x) = .ok x ∧
    encode_payment_response_header (.jobj kvs) none =
      .ok (safe_base64_encode (jsonDumps (.jobj kvs))) ∧
    decode_payment_response_header (safe_base64_encode (jsonDumps (.jobj kvs))) =
      .ok (.jobj kvs) := by
  obtain ⟨hvalid, hdec⟩ := header_roundtrip_core x hx
  have hloads := jsonLoads_jsonDumps x hx
  have hxk : canonicalJson (.jobj kvs) = true := by rw [canonicalJson]; exact hkvs
  obtain ⟨hvalid2, hdec2⟩ := header_roundtrip_core (.jobj kvs) hxk
  have hloads2 := jsonLoads_jsonDumps (.jobj kvs) hxk
  refine ⟨?_, ?_, ?_, ?_⟩
  · unfold decode_payment_signature_header encode_payment_signature_header
    rw [if_neg (show ¬ ¬ (is_valid_base64 (safe_base64_encode (jsonDumps x)) = true) from
      fun hn => hn hvalid)]
    rw [hdec]
    dsimp only
    rw [hloads]
  · unfold decode_payment_required_header encode_payment_required_header
    rw [if_neg (show ¬ ¬ (is_valid_base64 (safe_base64_encode (jsonDumps x)) = true) from
      fun hn => hn hvalid)]
    rw [hdec]
    dsimp only
    rw [hloads]
  · unfold encode_payment_response_header
    rw [show pyDict (.jobj kvs) =
      .ok ((objPairs kvs).map (fun p => (Json.jstr p.1, p.2))) from rfl]
    dsimp only
    rw [dumpDict_objPairs kvs]
  · unfold decode_payment_response_header
    rw [if_neg (show
      ¬ ¬ (is_valid_base64 (safe_base64_encode (jsonDumps (.jobj kvs))) = true) from
      fun hn => hn hvalid2)]
    rw [hdec2]
    dsimp only
    rw [hloads2]

/-- Witness for C7: a concrete object round-trips through the signature
codec, and the response encoder on the same object produces exactly its
encoding, which decodes back to it. -/
theorem c7_witness :
    canonicalJson (Json.jobj (.cons "t402Version".toList (.jnum 2)
      (.cons "accepted".toList (.jarr .nil) .nil))) = true ∧
    canonicalObj (.cons "t402Version".toList (.jnum 2)
      (.cons "accepted".toList (.jarr .nil) .nil)) = true ∧
    decode_payment_signature_header (encode_payment_signature_header
      (Json.jobj (.cons "t402Version".toList (.jnum 2)
        (.cons "accepted".toList (.jarr .nil) .nil)))) =
      .ok (Json.jobj (.cons "t402Version".toList (.jnum 2)
        (.cons "accepted".toList (.jarr .nil) .nil))) ∧
    encode_payment_response_header
        (Json.jobj (.cons "t402Version".toList (.jnum 2)
          (.cons "accepted".toList (.jarr .nil) .nil))) none =
      .ok (safe_base64_encode (jsonDumps (Json.jobj (.cons "t402Version".toList (.jnum 2)
        (.cons "accepted".toList (.jarr .nil) .nil))))) :=
  ⟨by decide, by decide,
   (c7_header_roundtrip (Json.jobj (.cons "t402Version".toList (.jnum 2)
      (.cons "accepted".toList (.jarr .nil) .nil)))
     (.cons "t402Version".toList (.jnum 2)
      (.cons "accepted".toList (.jarr .nil) .nil)) (by decide) (by decide)).1,
   (c7_header_roundtrip (Json.jobj (.cons "t402Version".toList (.jnum 2)
      (.cons "accepted".toList (.jarr .nil) .nil)))
     (.cons "t402Version".toList (.jnum 2)
      (.cons "accepted".toList (.jarr .nil) .nil)) (by decide) (by decide)).2.2.1⟩
